import Mathlib

/-!
Verification of the droneRL delivery-drones simulation.

Two embeddings are developed side by side:

* `Core`: the tick resolver of the core engine (the jax environment).  The
  core's own source file is not part of the repository snapshot (only its
  test suite `src/jax/test_env.py` and the renderer are), so the resolver is
  modelled from the specification, phase by phase, and checked against the
  concrete behaviours the test suite pins down.  Drone state is kept as
  per-drone arrays (position, carrying flag, charge) exactly as the spec's
  struct-of-arrays design note prescribes; the air layer is the derived map
  from cells to drone indices.
* `Legacy`: the numpy environment `src/env.py`, embedded with its per-package
  identity, index-matched deliveries and packet swapping.

Machine integers do not occur (all quantities are small naturals / integers);
randomness is an explicit stream of natural draws, mirroring the explicit
splittable rng the spec requires.
-/

namespace DroneRL

/-- The five intents, `src/env.py` lines 10-15 and spec section 3. -/
inductive Action
  | left
  | down
  | right
  | up
  | stay
deriving DecidableEq, Repr

/-- An explicit source of pseudo-random natural numbers: an infinite stream
`f` together with the index `k` of the next unread draw.  The spec treats the
PRNG as an external uniform source threaded through `reset` and `step`. -/
structure Rng where
  f : Nat → Nat
  k : Nat

/-- The next raw draw of the stream. -/
def Rng.next (r : Rng) : Nat := r.f r.k

/-- The stream with its first draw consumed. -/
def Rng.advance (r : Rng) : Rng := ⟨r.f, r.k + 1⟩

/-- The all-zero stream, used for concrete runs. -/
def rz : Rng := ⟨fun _ => 0, 0⟩

instance {ε α : Type _} [DecidableEq ε] [DecidableEq α] :
    DecidableEq (Except ε α) := fun x y =>
  match x, y with
  | Except.error a, Except.error b =>
    if h : a = b then Decidable.isTrue (congrArg Except.error h)
    else Decidable.isFalse (fun hc => h (Except.error.inj hc))
  | Except.ok a, Except.ok b =>
    if h : a = b then Decidable.isTrue (congrArg Except.ok h)
    else Decidable.isFalse (fun hc => h (Except.ok.inj hc))
  | Except.error _, Except.ok _ => Decidable.isFalse (fun hc => Except.noConfusion hc)
  | Except.ok _, Except.error _ => Decidable.isFalse (fun hc => Except.noConfusion hc)

/-- Movement offsets, row/column convention of spec section 3:
LEFT `(0,-1)`, DOWN `(+1,0)`, RIGHT `(0,+1)`, UP `(-1,0)`, STAY `(0,0)`. -/
def offA : Action → Int × Int
  | .left => (0, -1)
  | .down => (1, 0)
  | .right => (0, 1)
  | .up => (-1, 0)
  | .stay => (0, 0)

/-- Is an (integer) coordinate pair inside the `n` by `n` grid? -/
def insideB (n : Nat) (q : Int × Int) : Bool :=
  decide (0 ≤ q.1) && decide (q.1 < (n : Int)) && decide (0 ≤ q.2) && decide (q.2 < (n : Int))

/-- Truncate an in-grid integer coordinate pair back to naturals. -/
def toPos (q : Int × Int) : Nat × Nat := (q.1.toNat, q.2.toNat)

/-- Row-major flattening of a coordinate. -/
def cellOf (n : Nat) (p : Nat × Nat) : Nat := p.1 * n + p.2

/-- Inverse of `cellOf` on cells of an `n` by `n` grid. -/
def posOfCell (n : Nat) (c : Nat) : Nat × Nat := (c / n, c % n)

/-- Destination of drone slot `i` (spec Phase A): current position plus the
offset of its intent; intents missing from the vector default to STAY, as in
`src/env.py` line 117. -/
def destP (pos : List (Nat × Nat)) (acts : List Action) (i : Nat) : Int × Int :=
  let p := pos.getD i (0, 0)
  let o := offA (acts.getD i .stay)
  ((p.1 : Int) + o.1, (p.2 : Int) + o.2)

/-- Sampling without replacement (spec section 4.2 and design note on respawn
sampling): draw `k` cells from the list `free` of currently free cells, one at
a time; each draw takes the stream's next number modulo the number of cells
still free, removes the chosen cell and recurses.  Returns `none` exactly when
the free cells run out. -/
def pickCells : List Nat → Nat → Rng → Option (List Nat × Rng)
  | _, 0, rng => some ([], rng)
  | free, k + 1, rng =>
    if free.length = 0 then none
    else
      match pickCells (free.eraseIdx (rng.next % free.length)) k rng.advance with
      | none => none
      | some (cs, rng') => some (free.getD (rng.next % free.length) 0 :: cs, rng')

/-- Association lookup of a drone slot among `(slot, cell)` pairs. -/
def lookupD : List (Nat × Nat) → Nat → Nat → Nat
  | [], _, d => d
  | (i, c) :: rest, j, d => if i = j then c else lookupD rest j d

/-- Write items onto cells pairwise: item `j` goes to cell `j`. -/
def writeCells {α : Type _} : List α → List α → List Nat → List α
  | g, [], _ => g
  | g, _ :: _, [] => g
  | g, t :: ts, c :: cs => writeCells (g.set c t) ts cs

namespace Core

/-- Modelled from the spec: the ground-cell tags of the core engine
(`env/env.py` is absent from the snapshot; the tag values 2,3,4,5 appear in
`src/jax/test_env.py` lines 13-16).  `empty` is the zero tag. -/
inductive GTile
  | empty
  | skyscraper
  | station
  | dropzone
  | packet
deriving DecidableEq, Repr

/-- Modelled from the spec: the closed set of reward/battery parameters of
the missing core environment (spec section 6). -/
structure Params where
  pickupReward : Int
  deliveryReward : Int
  crashReward : Int
  chargeReward : Int
  dischargeRate : Nat
  chargeRate : Nat
deriving DecidableEq, Repr

/-- Modelled from the spec: the world state of the missing core environment.
The spec's design note prescribes struct-of-arrays drone state (`position`,
`carrying`, `charge` indexed by drone id); the air layer is the derived map
`airAt`.  Drone slots are 0-based here; the spec's drone index `i ∈ [1,D]`
is slot `i-1`.  `ground` is the row-major flattened `n` by `n` ground layer. -/
structure State where
  n : Nat
  ground : List GTile
  pos : List (Nat × Nat)
  carrying : List Bool
  charge : List Nat
deriving DecidableEq, Repr

/-- Modelled from the spec: the per-tick respawn bookkeeping the resolver
reports (mirroring the `info` dictionary of the reference `src/env.py` line
199): the drone slots scheduled for air respawn and the ground objects
scheduled for ground respawn. -/
structure Info where
  airRespawns : List Nat
  groundRespawns : List GTile
deriving DecidableEq, Repr

/-- Modelled from the spec: the Spawner's failure mode (spec section 7). -/
inductive SpawnError
  | insufficientSpace
deriving DecidableEq, Repr

/-- The ground tag at coordinate `p`. -/
def groundAt (n : Nat) (g : List GTile) (p : Nat × Nat) : GTile :=
  g.getD (cellOf n p) .empty

/-- The derived air layer: the 1-based index of the drone occupying `p`,
`0` if none (first matching slot if the state is illegal). -/
def slotAt : List (Nat × Nat) → Nat × Nat → Option Nat
  | [], _ => none
  | q :: rest, p => if q = p then some 0 else (slotAt rest p).map (· + 1)

/-- The air-layer value at cell `p`: `slot+1` of the drone there, else `0`. -/
def airAt (s : State) (p : Nat × Nat) : Nat :=
  match slotAt s.pos p with
  | some k => k + 1
  | none => 0

/-- All coordinates of the `n` by `n` grid, row-major. -/
def allCells (n : Nat) : List (Nat × Nat) :=
  (List.range (n * n)).map (posOfCell n)

/-- Modelled from the spec, Phase A: drone slot `i`'s intended destination. -/
def dst (s : State) (acts : List Action) (i : Nat) : Int × Int :=
  destP s.pos acts i

/-- Modelled from the spec, Phase B: slot `i` survives the boundary and
obstacle phase iff its destination is inside the grid and not a Skyscraper
cell. -/
def survB (s : State) (acts : List Action) (i : Nat) : Bool :=
  insideB s.n (dst s acts i) &&
    !(decide (groundAt s.n s.ground (toPos (dst s acts i)) = GTile.skyscraper))

/-- Modelled from the spec, Phase C: the Phase-B survivors whose destination
is the cell `q`. -/
def targeting (s : State) (acts : List Action) (q : Int × Int) : List Nat :=
  (List.range s.pos.length).filter (fun j => survB s acts j && decide (dst s acts j = q))

/-- Modelled from the spec, Phase C: slot `i` survives collision resolution
iff it survived Phase B and is alone in its destination group. -/
def survC (s : State) (acts : List Action) (i : Nat) : Bool :=
  survB s acts i && decide ((targeting s acts (dst s acts i)).length = 1)

/-- The carrying flag of slot `i`. -/
def carryB (s : State) (i : Nat) : Bool := s.carrying.getD i false

/-- Modelled from the spec, Phase D: slot `i` picks a Packet up iff it
survived, its destination holds a Packet and it is not already carrying. -/
def picksUp (s : State) (acts : List Action) (i : Nat) : Bool :=
  survC s acts i && decide (groundAt s.n s.ground (toPos (dst s acts i)) = GTile.packet) &&
    !(carryB s i)

/-- Modelled from the spec, Phase D: slot `i` delivers iff it survived, its
destination holds a Dropzone and it is carrying.  There is no per-package
identity in the core: any package delivers on any Dropzone. -/
def delivers (s : State) (acts : List Action) (i : Nat) : Bool :=
  survC s acts i && decide (groundAt s.n s.ground (toPos (dst s acts i)) = GTile.dropzone) &&
    carryB s i

/-- Slot `i` clears its destination's ground cell this tick. -/
def clearsCell (s : State) (acts : List Action) (i : Nat) : Bool :=
  picksUp s acts i || delivers s acts i

/-- Modelled from the spec, Phase D: the ground layer after pickups and
deliveries cleared their cells.  Survivor destinations are pairwise distinct
after Phase C, so the per-drone clears commute and a pointwise map is the
vectorized form the core uses. -/
def groundD (s : State) (acts : List Action) : List GTile :=
  (List.range (s.n * s.n)).map (fun c =>
    if (List.range s.pos.length).any (fun i =>
        clearsCell s acts i && decide (cellOf s.n (toPos (dst s acts i)) = c))
    then GTile.empty else s.ground.getD c GTile.empty)

/-- Modelled from the spec, Phase D: the carrying flag after ground
interaction. -/
def carryD (s : State) (acts : List Action) (i : Nat) : Bool :=
  if picksUp s acts i then true
  else if delivers s acts i then false
  else carryB s i

/-- Modelled from the spec, Phase E: slot `i` is charging iff it survived and
sits on a Station cell after Phase D (Station cells are never cleared). -/
def onStation (s : State) (acts : List Action) (i : Nat) : Bool :=
  survC s acts i &&
    decide (groundAt s.n (groundD s acts) (toPos (dst s acts i)) = GTile.station)

/-- Modelled from the spec, Phase E: the battery level after this tick, for
surviving slots: charging raises it by `chargeRate` capped at 100, otherwise
it drops by `dischargeRate` floored at 0 (natural subtraction). -/
def chargeE (P : Params) (s : State) (acts : List Action) (i : Nat) : Nat :=
  if onStation s acts i then min 100 (s.charge.getD i 0 + P.chargeRate)
  else s.charge.getD i 0 - P.dischargeRate

/-- Modelled from the spec, Phase E: a surviving slot whose battery reaches 0
crashes at end of tick. -/
def battCrash (P : Params) (s : State) (acts : List Action) (i : Nat) : Bool :=
  survC s acts i && decide (chargeE P s acts i = 0)

/-- Slot `i` is still flying at the end of the tick. -/
def alive (P : Params) (s : State) (acts : List Action) (i : Nat) : Bool :=
  survC s acts i && !(battCrash P s acts i)

/-- Modelled from the spec: the reward accumulated by slot `i` this tick.
Rewards default to 0; crash, pickup, delivery, charging and battery-crash
contributions add up. -/
def rewardOf (P : Params) (s : State) (acts : List Action) (i : Nat) : Int :=
  (if survC s acts i then 0 else P.crashReward)
    + (if picksUp s acts i then P.pickupReward else 0)
    + (if delivers s acts i then P.deliveryReward else 0)
    + (if onStation s acts i then P.chargeReward else 0)
    + (if battCrash P s acts i then P.crashReward else 0)

/-- Modelled from the spec, Phase B: packets lost to boundary/obstacle
crashes, scheduled for ground respawn. -/
def gRespB (s : State) (acts : List Action) : List GTile :=
  (List.range s.pos.length).filterMap (fun i =>
    if !(survB s acts i) && carryB s i then some GTile.packet else none)

/-- Modelled from the spec, Phase C: packets lost to collision crashes. -/
def gRespC (s : State) (acts : List Action) : List GTile :=
  (List.range s.pos.length).filterMap (fun i =>
    if survB s acts i && !(survC s acts i) && carryB s i then some GTile.packet else none)

/-- Phase D respawn items.  The spec's section 4.3 would also schedule a
replacement Packet at every pickup, but the repository's own test suite pins
the opposite behaviour down: after the pickup of `test_packages`
(`src/jax/test_env.py` line 218) exactly one ground object is left, so a
consumed packet is absorbed without replacement.  Only delivered Dropzones
are rescheduled. -/
def gRespD (s : State) (acts : List Action) : List GTile :=
  (List.range s.pos.length).filterMap (fun i =>
    if delivers s acts i then some GTile.dropzone else none)

/-- Modelled from the spec, Phase E: packets lost to battery crashes. -/
def gRespE (P : Params) (s : State) (acts : List Action) : List GTile :=
  (List.range s.pos.length).filterMap (fun i =>
    if battCrash P s acts i && carryD s acts i then some GTile.packet else none)

/-- All ground objects scheduled for respawn this tick, in phase order. -/
def gResp (P : Params) (s : State) (acts : List Action) : List GTile :=
  gRespB s acts ++ gRespC s acts ++ gRespD s acts ++ gRespE P s acts

/-- The drone slots scheduled for air respawn (Phases B, C or E). -/
def aResp (P : Params) (s : State) (acts : List Action) : List Nat :=
  (List.range s.pos.length).filter (fun i => !(alive P s acts i))

/-- The cells occupied by still-flying drones at the end of the tick. -/
def alivePosCells (P : Params) (s : State) (acts : List Action) : List Nat :=
  (List.range s.pos.length).filterMap (fun i =>
    if alive P s acts i then some (cellOf s.n (toPos (dst s acts i))) else none)

/-- Cells empty in the ground layer and not occupied in the air layer:
the Spawner's sample space for ground objects. -/
def freeForItems (n : Nat) (g : List GTile) (occ : List Nat) : List Nat :=
  (List.range (n * n)).filter (fun c =>
    decide (g.getD c GTile.empty = GTile.empty) && !(decide (c ∈ occ)))

/-- Cells not occupied in the air layer: the sample space for drone respawn.
Modelled from the spec's Phase F.3 and scenario S6 (and `test_respawn` in
`src/jax/test_env.py`): a respawned drone may land on a Packet cell, so drone
respawn is constrained by the air layer only. -/
def freeForDrones (n : Nat) (occ : List Nat) : List Nat :=
  (List.range (n * n)).filter (fun c => !(decide (c ∈ occ)))

/-- Positions at end of tick: survivors sit at their destinations, respawned
drones at their assigned spawn cells. -/
def posAfter (P : Params) (s : State) (acts : List Action) (ac : List Nat) :
    List (Nat × Nat) :=
  (List.range s.pos.length).map (fun i =>
    if alive P s acts i then toPos (dst s acts i)
    else posOfCell s.n (lookupD ((aResp P s acts).zip ac) i 0))

/-- Carrying flags before the post-respawn free pickup: survivors keep their
Phase-D flag, respawned drones are reset to `false`. -/
def carryAfter (P : Params) (s : State) (acts : List Action) : List Bool :=
  (List.range s.pos.length).map (fun i =>
    if alive P s acts i then carryD s acts i else false)

/-- Battery at end of tick: survivors as Phase E, respawned drones at 100. -/
def chargeAfter (P : Params) (s : State) (acts : List Action) : List Nat :=
  (List.range s.pos.length).map (fun i =>
    if alive P s acts i then chargeE P s acts i else 100)

/-- Modelled from the spec: the intermediate result of the tick after the two
Spawner calls but before the post-respawn free pickup.  `landed` pairs each
respawned slot with its landing cell. -/
structure Mid where
  n : Nat
  ground : List GTile
  pos : List (Nat × Nat)
  carrying : List Bool
  charge : List Nat
  rewards : List Int
  dones : List Bool
  info : Info
  landed : List (Nat × Nat)
deriving DecidableEq, Repr

/-- Assemble the intermediate record from the chosen ground cells `gc` and
drone cells `ac`. -/
def buildMid (P : Params) (s : State) (acts : List Action) (gc ac : List Nat) : Mid :=
  { n := s.n
    ground := writeCells (groundD s acts) (gResp P s acts) gc
    pos := posAfter P s acts ac
    carrying := carryAfter P s acts
    charge := chargeAfter P s acts
    rewards := (List.range s.pos.length).map (rewardOf P s acts)
    dones := (List.range s.pos.length).map (fun i => !(alive P s acts i))
    info := ⟨aResp P s acts, gResp P s acts⟩
    landed := (aResp P s acts).zip ac }

/-- Modelled from the spec, Phases A-F.2 of the tick of the missing core
`env/env.py`: movement, boundary/obstacle crashes, collision resolution,
ground interaction, battery dynamics, then ground respawn followed by air
respawn (ground first, so a drone may land atop a freshly spawned object). -/
def stepMid (P : Params) (rng : Rng) (s : State) (acts : List Action) :
    Except SpawnError Mid :=
  match pickCells (freeForItems s.n (groundD s acts) (alivePosCells P s acts))
      (gResp P s acts).length rng with
  | none => Except.error SpawnError.insufficientSpace
  | some (gc, rng1) =>
    match pickCells (freeForDrones s.n (alivePosCells P s acts))
        (aResp P s acts).length rng1 with
    | none => Except.error SpawnError.insufficientSpace
    | some (ac, _) => Except.ok (buildMid P s acts gc ac)

/-- Modelled from the spec, Phase F.3: the post-respawn free pickup.  Every
respawned drone landing on a Packet cell silently absorbs the packet: the
flag is set, the cell is cleared, no reward and no replacement. -/
def pickupPairs : List (Nat × Nat) → List GTile × List Bool → List GTile × List Bool
  | [], st => st
  | (i, c) :: rest, (g, carry) =>
    if g.getD c GTile.empty = GTile.packet then
      pickupPairs rest (g.set c GTile.empty, carry.set i true)
    else pickupPairs rest (g, carry)

/-- Apply the free pickup of Phase F.3 to the intermediate record, producing
the tick's outputs. -/
def finishStep (m : Mid) : State × List Int × List Bool × Info :=
  match pickupPairs m.landed (m.ground, m.carrying) with
  | (g, carry) => (⟨m.n, g, m.pos, carry, m.charge⟩, m.rewards, m.dones, m.info)

/-- Modelled from the spec: the full tick `(state, intents, rng) →
(state', rewards, dones, info)` of the missing core `env/env.py`. -/
def step (P : Params) (rng : Rng) (s : State) (acts : List Action) :
    Except SpawnError (State × List Int × List Bool × Info) :=
  (stepMid P rng s acts).map finishStep

/-- Cells empty in both layers of a state: the Spawner's sample space. -/
def freeBoth (s : State) : List Nat :=
  freeForItems s.n s.ground (s.pos.map (cellOf s.n))

/-- Modelled from the spec, section 4.2: the standalone Spawner contract of
the missing core.  Writes the items onto distinct cells drawn without
replacement from the cells empty in both layers and returns the chosen
cells in items-order; fails with `InsufficientSpace` when the free cells
are outnumbered. -/
def spawn (items : List GTile) (s : State) (rng : Rng) :
    Except SpawnError (State × List Nat) :=
  match pickCells (freeBoth s) items.length rng with
  | none => Except.error SpawnError.insufficientSpace
  | some (cs, _) => Except.ok ({ s with ground := writeCells s.ground items cs }, cs)

/-- A legal state: layer sizes agree with the geometry, the per-drone arrays
agree in length, and drones occupy pairwise distinct in-grid cells. -/
def Legal (s : State) : Prop :=
  s.ground.length = s.n * s.n ∧ s.carrying.length = s.pos.length ∧
    s.charge.length = s.pos.length ∧ s.pos.Nodup ∧
    ∀ p ∈ s.pos, p.1 < s.n ∧ p.2 < s.n

instance (s : State) : Decidable (Legal s) := by
  unfold Legal
  infer_instance

/-- Concrete parameters for the worked scenarios: pickup 2, delivery 5,
crash -3, charge reward 1, discharge 10, charge rate 20. -/
def Pa : Params := ⟨2, 5, -3, 1, 10, 20⟩

/-- 3 by 3 world, one drone at the origin carrying a package, a Dropzone one
cell to its right. -/
def sDeliver : State :=
  ⟨3, (List.replicate 9 GTile.empty).set 1 GTile.dropzone, [(0, 0)], [true], [100]⟩

/-- 3 by 3 world, one carrying drone, a Packet one cell to its right. -/
def sCarryW : State :=
  ⟨3, (List.replicate 9 GTile.empty).set 1 GTile.packet, [(0, 0)], [true], [100]⟩

/-- 3 by 3 world, one empty-handed drone, a Packet one cell to its right. -/
def sPickW : State :=
  ⟨3, (List.replicate 9 GTile.empty).set 1 GTile.packet, [(0, 0)], [false], [100]⟩

/-- 3 by 3 world, two drones three cells apart moving head-on. -/
def sCollW : State :=
  ⟨3, List.replicate 9 GTile.empty, [(0, 0), (0, 2)], [false, false], [100, 100]⟩

/-- 3 by 3 world, two adjacent drones about to swap cells. -/
def sSwapW : State :=
  ⟨3, List.replicate 9 GTile.empty, [(0, 0), (0, 1)], [false, false], [100, 100]⟩

/-- 3 by 3 world, one drone about to fly off the left edge; a Packet sits on
the cell the zero stream respawns it onto. -/
def sCrashW : State :=
  ⟨3, (List.replicate 9 GTile.empty).set 0 GTile.packet, [(0, 0)], [false], [100]⟩

/-- Fallback output for reading off a successful step. -/
def outDefault : State × List Int × List Bool × Info :=
  (⟨0, [], [], [], []⟩, [], [], ⟨[], []⟩)

/-- The output of a step known to succeed. -/
def outOf (r : Except SpawnError (State × List Int × List Bool × Info)) :
    State × List Int × List Bool × Info :=
  r.toOption.getD outDefault

/-- Fallback intermediate record. -/
def midDefault : Mid := ⟨0, [], [], [], [], [], [], ⟨[], []⟩, []⟩

/-- The intermediate record of a tick known to succeed. -/
def midOf (r : Except SpawnError Mid) : Mid := r.toOption.getD midDefault

/-- Outputs of the worked scenarios under the zero stream. -/
def outDe : State × List Int × List Bool × Info := outOf (step Pa rz sDeliver [Action.right])

/-- Output of the carrying-drone-over-packet scenario. -/
def outCa : State × List Int × List Bool × Info := outOf (step Pa rz sCarryW [Action.right])

/-- Output of the pickup scenario. -/
def outPi : State × List Int × List Bool × Info := outOf (step Pa rz sPickW [Action.right])

/-- Output of the head-on collision scenario. -/
def outCo : State × List Int × List Bool × Info :=
  outOf (step Pa rz sCollW [Action.right, Action.left])

/-- Output of the swap scenario. -/
def outSw : State × List Int × List Bool × Info :=
  outOf (step Pa rz sSwapW [Action.right, Action.left])

/-- Intermediate record of the crash-respawn scenario. -/
def midCr : Mid := midOf (stepMid Pa rz sCrashW [Action.left])

end Core

namespace Legacy

/-- Ground tiles of the reference numpy environment `src/env.py`: `Packet`
and `Dropzone` objects carry a delivery index (lines 17-29); `empty` is the
`None` cell. -/
inductive LTile
  | empty
  | packet (k : Nat)
  | dropzone (k : Nat)
deriving DecidableEq, Repr

/-- State of `src/env.py`'s `DeliveryDrones`: the flattened ground grid, the
position of each drone (slot `i` is the drone object `Drone(i+1)`) and the
index of the packet each drone holds (`Drone.packet`, line 34). -/
structure LState where
  n : Nat
  ground : List LTile
  pos : List (Nat × Nat)
  pack : List (Option Nat)
deriving DecidableEq, Repr

/-- Intended destination of drone slot `i` (`src/env.py` lines 117-127). -/
def dstL (s : LState) (acts : List Action) (i : Nat) : Int × Int :=
  destP s.pos acts i

/-- The drone stays inside the grid (`src/env.py` line 130). -/
def insideL (s : LState) (acts : List Action) (i : Nat) : Bool :=
  insideB s.n (dstL s acts i)

/-- Slots that plan to move to cell `q` and stay inside
(`new_positions[q]`, `src/env.py` line 131). -/
def targetingL (s : LState) (acts : List Action) (q : Int × Int) : List Nat :=
  (List.range s.pos.length).filter (fun j => insideL s acts j && decide (dstL s acts j = q))

/-- Collision: the destination group of slot `i` has two or more members
(`src/env.py` line 147). -/
def collide (s : LState) (acts : List Action) (i : Nat) : Bool :=
  insideL s acts i && decide (2 ≤ (targetingL s acts (dstL s acts i)).length)

/-- Slot `i` survives the tick: inside the grid and not in a collision. -/
def aliveL (s : LState) (acts : List Action) (i : Nat) : Bool :=
  insideL s acts i && !(collide s acts i)

/-- Accumulator for the sequential crash/ground-interaction sweep of
`src/env.py` lines 112-187: the ground grid, the per-drone held packet, the
per-drone rewards and the `ground_respawns` list. -/
structure Acc where
  ground : List LTile
  pack : List (Option Nat)
  rewards : List Int
  resp : List LTile
deriving DecidableEq, Repr

/-- One drone's share of the sweep.  A crashing drone (outside the grid,
line 134, or in a collision, line 147) gets reward `-1`, loses its packet to
`ground_respawns` and leaves the air.  A surviving drone lands and interacts
with the ground (lines 162-187): packet cells are picked up or swapped,
a dropzone cell pays `1` and schedules packet and dropzone for respawn only
when the held packet's index matches the dropzone's.  The source iterates
drones in grid order and destination groups in dict order; the sweep here
runs in slot order, which permutes only the order of `resp`. -/
def interact (s : LState) (acts : List Action) (a : Acc) (i : Nat) : Acc :=
  if aliveL s acts i then
    match a.ground.getD (cellOf s.n (toPos (dstL s acts i))) LTile.empty,
        a.pack.getD i none with
    | LTile.packet k, some m =>
      { a with ground := a.ground.set (cellOf s.n (toPos (dstL s acts i))) (LTile.packet m)
               pack := a.pack.set i (some k) }
    | LTile.packet k, none =>
      { a with ground := a.ground.set (cellOf s.n (toPos (dstL s acts i))) LTile.empty
               pack := a.pack.set i (some k) }
    | LTile.dropzone k, some m =>
      if m = k then
        { ground := a.ground.set (cellOf s.n (toPos (dstL s acts i))) LTile.empty
          pack := a.pack.set i none
          rewards := a.rewards.set i 1
          resp := a.resp ++ [LTile.packet m, LTile.dropzone k] }
      else a
    | _, _ => a
  else
    { a with pack := a.pack.set i none
             rewards := a.rewards.set i (-1)
             resp := a.resp ++ (match a.pack.getD i none with
               | some m => [LTile.packet m]
               | none => []) }

/-- The sweep over a list of drone slots. -/
def interactList (s : LState) (acts : List Action) : List Nat → Acc → Acc
  | [], a => a
  | i :: rest, a => interactList s acts rest (interact s acts a i)

/-- The sweep over all drones, from the initial state of the tick. -/
def phase1 (s : LState) (acts : List Action) : Acc :=
  interactList s acts (List.range s.pos.length)
    ⟨s.ground, s.pack, List.replicate s.pos.length 0, []⟩

/-- Slots that crashed this tick (`air_respawns`). -/
def crashedIdx (s : LState) (acts : List Action) : List Nat :=
  (List.range s.pos.length).filter (fun i => !(aliveL s acts i))

/-- Air cells occupied by surviving drones after movement. -/
def aliveCellsL (s : LState) (acts : List Action) : List Nat :=
  (List.range s.pos.length).filterMap (fun i =>
    if aliveL s acts i then some (cellOf s.n (toPos (dstL s acts i))) else none)

/-- `Grid.spawn` samples from the cells of one grid that hold `None`
(`src/env.py` line 78): for the ground grid, the empty ground cells. -/
def freeGroundL (n : Nat) (g : List LTile) : List Nat :=
  (List.range (n * n)).filter (fun c => decide (g.getD c LTile.empty = LTile.empty))

/-- For the air grid, the cells without a surviving drone. -/
def freeAirL (n : Nat) (occ : List Nat) : List Nat :=
  (List.range (n * n)).filter (fun c => !(decide (c ∈ occ)))

/-- `_pick_packets_after_respawn` (`src/env.py` lines 229-233): every
respawned drone landing on a packet takes it and clears the cell. -/
def pickupL : List (Nat × Nat) → List LTile × List (Option Nat) →
    List LTile × List (Option Nat)
  | [], st => st
  | (i, c) :: rest, (g, pk) =>
    match g.getD c LTile.empty with
    | LTile.packet m => pickupL rest (g.set c LTile.empty, pk.set i (some m))
    | _ => pickupL rest (g, pk)

/-- The tick of `src/env.py` (`DeliveryDrones.step`, lines 103-200):
movement and crash resolution, ground interaction, ground respawn of lost
and delivered objects, air respawn of crashed drones, then the free pickup
of packets under respawned drones.  Spawning uses the explicit stream in
place of numpy's global generator. -/
def stepL (rng : Rng) (s : LState) (acts : List Action) :
    Except Core.SpawnError (LState × List Int × List Bool) :=
  match pickCells (freeGroundL s.n (phase1 s acts).ground) (phase1 s acts).resp.length rng with
  | none => Except.error Core.SpawnError.insufficientSpace
  | some (gc, rng1) =>
    match pickCells (freeAirL s.n (aliveCellsL s acts)) (crashedIdx s acts).length rng1 with
    | none => Except.error Core.SpawnError.insufficientSpace
    | some (ac, _) =>
      match pickupL ((crashedIdx s acts).zip ac)
          (writeCells (phase1 s acts).ground (phase1 s acts).resp gc,
            (phase1 s acts).pack) with
      | (g3, pk3) =>
        Except.ok
          (⟨s.n, g3,
            (List.range s.pos.length).map (fun i =>
              if aliveL s acts i then toPos (dstL s acts i)
              else posOfCell s.n (lookupD ((crashedIdx s acts).zip ac) i 0)),
            pk3⟩,
           (phase1 s acts).rewards,
           (List.range s.pos.length).map (fun i => !(aliveL s acts i)))

/-- Does a tile hold a packet? -/
def isPk : LTile → Bool
  | LTile.packet _ => true
  | _ => false

/-- The total number of packages in the world: packets on the ground plus
packets held by drones. -/
def packCount (s : LState) : Nat :=
  s.ground.countP isPk + s.pack.countP (fun o => o.isSome)

/-- A well-sized legacy state: the ground grid matches the geometry and
each drone has a cargo slot. -/
def LegalL (s : LState) : Prop :=
  s.ground.length = s.n * s.n ∧ s.pack.length = s.pos.length

instance (s : LState) : Decidable (LegalL s) := by
  unfold LegalL
  infer_instance

/-- The conserved bookkeeping of the sequential sweep: packets on the ground,
packets held, and packets already scheduled for respawn. -/
def mAcc (a : Acc) : Nat :=
  a.ground.countP isPk + a.pack.countP (fun o => o.isSome) + a.resp.countP isPk

/-- 2 by 2 legacy world: one drone at the origin, packet 1 to its right. -/
def sLW : LState :=
  ⟨2, [LTile.empty, LTile.packet 1, LTile.empty, LTile.empty], [(0, 0)], [none]⟩

/-- Output of the legacy pickup scenario under the zero stream. -/
def outLW : LState × List Int × List Bool :=
  (stepL rz sLW [Action.right]).toOption.getD (⟨0, [], [], []⟩, [], [])

end Legacy

/-! ## Generic list and geometry lemmas -/

section ListFacts

variable {α : Type _}

theorem getD_set_self (l : List α) (i : Nat) (v d : α) (h : i < l.length) :
    (l.set i v).getD i d = v := by
  induction l generalizing i with
  | nil => simp at h
  | cons a t ih =>
    cases i with
    | zero => rfl
    | succ j => simpa [List.set, List.getD] using ih j (by simpa using h)

theorem getD_set_ne (l : List α) (i j : Nat) (v d : α) (h : i ≠ j) :
    (l.set i v).getD j d = l.getD j d := by
  induction l generalizing i j with
  | nil => rfl
  | cons a t ih =>
    cases i with
    | zero =>
      cases j with
      | zero => exact absurd rfl h
      | succ j' => rfl
    | succ i' =>
      cases j with
      | zero => rfl
      | succ j' =>
        simpa [List.set, List.getD] using ih i' j' (fun hc => h (by rw [hc]))

theorem getD_eq_getElem (l : List α) (i : Nat) (d : α) (hi : i < l.length) :
    l.getD i d = l[i] := by
  simp [List.getD, List.getElem?_eq_getElem hi]

theorem getD_mem_of_lt {l : List α} {i : Nat} (d : α) (hi : i < l.length) :
    l.getD i d ∈ l := by
  rw [getD_eq_getElem l i d hi]
  exact List.getElem_mem hi

theorem getD_map_range {β : Type _} (m c : Nat) (f : Nat → β) (d : β) (h : c < m) :
    (((List.range m).map f).getD c d) = f c := by
  have hc : c < ((List.range m).map f).length := by simpa using h
  rw [getD_eq_getElem _ _ _ hc]
  simp [h]

theorem countP_set (l : List α) (i : Nat) (v : α) (p : α → Bool) (d : α) (h : i < l.length) :
    (l.set i v).countP p + (if p (l.getD i d) then 1 else 0)
      = l.countP p + (if p v then 1 else 0) := by
  induction l generalizing i with
  | nil => simp at h
  | cons a t ih =>
    cases i with
    | zero =>
      simp only [List.set, List.getD, List.get?, Option.getD_some, List.countP_cons]
      omega
    | succ j =>
      have hj : j < t.length := by simpa using h
      have := ih j hj
      simp only [List.set, List.countP_cons, List.getD, List.get?] at *
      omega

theorem countP_set_eq {l : List α} {i : Nat} {v : α} {p : α → Bool} {d : α}
    (h : i < l.length) (hsame : p v = p (l.getD i d)) :
    (l.set i v).countP p = l.countP p := by
  have hc := countP_set l i v p d h
  rw [← hsame] at hc
  omega

theorem countP_set_add {l : List α} {i : Nat} {v : α} {p : α → Bool} {d : α}
    (h : i < l.length) (hv : p v = true) (hold : p (l.getD i d) = false) :
    (l.set i v).countP p = l.countP p + 1 := by
  have hc := countP_set l i v p d h
  rw [hv, hold] at hc
  simp at hc
  omega

theorem countP_set_sub {l : List α} {i : Nat} {v : α} {p : α → Bool} {d : α}
    (h : i < l.length) (hv : p v = false) (hold : p (l.getD i d) = true) :
    (l.set i v).countP p + 1 = l.countP p := by
  have hc := countP_set l i v p d h
  rw [hv, hold] at hc
  simp at hc
  omega

theorem two_le_length_of_nodup {a b : α} {l : List α} (hn : l.Nodup)
    (ha : a ∈ l) (hb : b ∈ l) (hab : a ≠ b) : 2 ≤ l.length := by
  induction l with
  | nil => simp at ha
  | cons x t ih =>
    rcases List.mem_cons.1 ha with rfl | ha'
    · rcases List.mem_cons.1 hb with rfl | hb'
      · exact absurd rfl hab
      · have : 0 < t.length := List.length_pos_of_mem hb'
        simp only [List.length_cons]; omega
    · have : 0 < t.length := List.length_pos_of_mem ha'
      simp only [List.length_cons]; omega

theorem length_eq_one_of_unique {a : α} {l : List α} (ha : a ∈ l)
    (huniq : ∀ x ∈ l, x = a) (hn : l.Nodup) : l.length = 1 := by
  cases l with
  | nil => simp at ha
  | cons x t =>
    have hx : x = a := huniq x (List.mem_cons_self _ _)
    have ht : t = [] := by
      cases t with
      | nil => rfl
      | cons y u =>
        have hy : y = a := huniq y (by simp)
        subst hx hy
        simp at hn
    simp [ht]

theorem mem_of_mem_eraseIdx {l : List α} {i : Nat} {a : α}
    (h : a ∈ l.eraseIdx i) : a ∈ l := by
  induction l generalizing i with
  | nil => simpa [List.eraseIdx] using h
  | cons x t ih =>
    cases i with
    | zero => exact List.mem_cons_of_mem _ h
    | succ j =>
      rcases List.mem_cons.1 h with rfl | h'
      · exact List.mem_cons_self _ _
      · exact List.mem_cons_of_mem _ (ih h')

theorem nodup_eraseIdx {l : List α} (i : Nat) (hn : l.Nodup) :
    (l.eraseIdx i).Nodup := by
  induction l generalizing i with
  | nil => simpa [List.eraseIdx]
  | cons x t ih =>
    cases i with
    | zero => exact hn.of_cons
    | succ j =>
      rcases List.nodup_cons.1 hn with ⟨hx, ht⟩
      exact List.nodup_cons.2 ⟨fun hc => hx (mem_of_mem_eraseIdx hc), ih j ht⟩

theorem getD_not_mem_eraseIdx {l : List α} {i : Nat} {d : α} (hn : l.Nodup)
    (hi : i < l.length) : l.getD i d ∉ l.eraseIdx i := by
  induction l generalizing i with
  | nil => simp at hi
  | cons x t ih =>
    cases i with
    | zero =>
      simpa [List.getD, List.eraseIdx] using (List.nodup_cons.1 hn).1
    | succ j =>
      rcases List.nodup_cons.1 hn with ⟨hx, ht⟩
      have hj : j < t.length := by simpa using hi
      intro hc
      rcases List.mem_cons.1 hc with hc' | hc'
      · exact hx (hc' ▸ getD_mem_of_lt d hj)
      · exact ih ht hj hc'

end ListFacts

theorem pickCells_none_iff (free : List Nat) (k : Nat) (rng : Rng) :
    pickCells free k rng = none ↔ free.length < k := by
  induction k generalizing free rng with
  | zero => simp [pickCells]
  | succ k ih =>
    by_cases h0 : free.length = 0
    · simp [pickCells, h0]
    · have hpos : 0 < free.length := Nat.pos_of_ne_zero h0
      have hidx : rng.next % free.length < free.length := Nat.mod_lt _ hpos
      have herase : (free.eraseIdx (rng.next % free.length)).length = free.length - 1 :=
        List.length_eraseIdx_of_lt hidx
      rw [pickCells]
      simp only [h0, if_false]
      rcases hrec : pickCells (free.eraseIdx (rng.next % free.length)) k rng.advance with
        _ | ⟨cs, rng'⟩
      · have := (ih _ rng.advance).1 hrec
        rw [herase] at this
        simp only [true_iff]
        omega
      · have hnlt : ¬ (free.eraseIdx (rng.next % free.length)).length < k := by
          intro hc
          rw [(ih _ rng.advance).2 hc] at hrec
          exact Option.noConfusion hrec
        rw [herase] at hnlt
        constructor
        · intro hc; exact Option.noConfusion hc
        · intro hlt; exact absurd hlt (by omega)

theorem pickCells_spec (free : List Nat) (k : Nat) (rng : Rng) (cs : List Nat) (rng' : Rng)
    (h : pickCells free k rng = some (cs, rng')) :
    cs.length = k ∧ (∀ c ∈ cs, c ∈ free) ∧ (free.Nodup → cs.Nodup) := by
  induction k generalizing free rng cs rng' with
  | zero =>
    simp only [pickCells, Option.some.injEq, Prod.mk.injEq] at h
    rcases h with ⟨rfl, rfl⟩
    simp
  | succ k ih =>
    by_cases h0 : free.length = 0
    · simp [pickCells, h0] at h
    · have hpos : 0 < free.length := Nat.pos_of_ne_zero h0
      have hidx : rng.next % free.length < free.length := Nat.mod_lt _ hpos
      rw [pickCells] at h
      simp only [h0, if_false] at h
      rcases hrec : pickCells (free.eraseIdx (rng.next % free.length)) k rng.advance with
        _ | ⟨cs0, rng0⟩
      · rw [hrec] at h; exact Option.noConfusion h
      · rw [hrec] at h
        simp only [Option.some.injEq, Prod.mk.injEq] at h
        rcases h with ⟨rfl, rfl⟩
        rcases ih _ rng.advance cs0 rng0 hrec with ⟨hlen, hsub, hnd⟩
        refine ⟨by simp [hlen], ?_, ?_⟩
        · intro c hc
          rcases List.mem_cons.1 hc with rfl | hc'
          · exact getD_mem_of_lt 0 hidx
          · exact mem_of_mem_eraseIdx (hsub c hc')
        · intro hfree
          refine List.nodup_cons.2 ⟨?_, hnd (nodup_eraseIdx _ hfree)⟩
          intro hc
          exact getD_not_mem_eraseIdx hfree hidx (hsub _ hc)

section Geometry

theorem insideB_iff (n : Nat) (q : Int × Int) :
    insideB n q = true ↔ 0 ≤ q.1 ∧ q.1 < (n : Int) ∧ 0 ≤ q.2 ∧ q.2 < (n : Int) := by
  simp [insideB, and_assoc]

theorem toPos_fst_lt {n : Nat} {q : Int × Int} (h : insideB n q = true) :
    (toPos q).1 < n := by
  rcases (insideB_iff n q).1 h with ⟨h1, h2, _, _⟩
  simp only [toPos]
  omega

theorem toPos_snd_lt {n : Nat} {q : Int × Int} (h : insideB n q = true) :
    (toPos q).2 < n := by
  rcases (insideB_iff n q).1 h with ⟨_, _, h3, h4⟩
  simp only [toPos]
  omega

theorem toPos_cast (p : Nat × Nat) : toPos ((p.1 : Int), (p.2 : Int)) = p := by
  simp [toPos]

theorem toPos_inj {n : Nat} {q q' : Int × Int} (h : insideB n q = true)
    (h' : insideB n q' = true) (he : toPos q = toPos q') : q = q' := by
  rcases (insideB_iff n q).1 h with ⟨h1, _, h3, _⟩
  rcases (insideB_iff n q').1 h' with ⟨h1', _, h3', _⟩
  simp only [toPos, Prod.mk.injEq] at he
  rcases he with ⟨ha, hb⟩
  have := Int.toNat_of_nonneg h1
  have := Int.toNat_of_nonneg h3
  have := Int.toNat_of_nonneg h1'
  have := Int.toNat_of_nonneg h3'
  have : q.1 = q'.1 := by omega
  have : q.2 = q'.2 := by omega
  exact Prod.ext (by omega) (by omega)

theorem cellOf_lt {n : Nat} {p : Nat × Nat} (h1 : p.1 < n) (h2 : p.2 < n) :
    cellOf n p < n * n := by
  have : p.1 * n + n ≤ n * n := by
    calc p.1 * n + n = (p.1 + 1) * n := by ring
    _ ≤ n * n := Nat.mul_le_mul_right n h1
  simp only [cellOf]
  omega

theorem posOfCell_cellOf {n : Nat} {p : Nat × Nat} (h2 : p.2 < n) :
    posOfCell n (cellOf n p) = p := by
  have hn : 0 < n := by omega
  simp only [posOfCell, cellOf]
  refine Prod.ext ?_ ?_
  · show (p.1 * n + p.2) / n = p.1
    rw [Nat.mul_comm, Nat.mul_add_div hn, Nat.div_eq_of_lt h2]
    omega
  · show (p.1 * n + p.2) % n = p.2
    rw [Nat.mul_comm, Nat.mul_add_mod, Nat.mod_eq_of_lt h2]

theorem cellOf_posOfCell {n c : Nat} (h : c < n * n) :
    cellOf n (posOfCell n c) = c := by
  have hn : 0 < n := by
    rcases Nat.eq_zero_or_pos n with h0 | h0
    · subst h0; simp at h
    · exact h0
  simp only [cellOf, posOfCell]
  rw [Nat.mul_comm]
  exact Nat.div_add_mod c n

theorem posOfCell_fst_lt {n c : Nat} (h : c < n * n) : (posOfCell n c).1 < n := by
  have hn : 0 < n := by
    rcases Nat.eq_zero_or_pos n with h0 | h0
    · subst h0; simp at h
    · exact h0
  simp only [posOfCell]
  exact Nat.div_lt_iff_lt_mul hn |>.2 (by omega)

theorem posOfCell_snd_lt {n c : Nat} (h : c < n * n) : (posOfCell n c).2 < n := by
  have hn : 0 < n := by
    rcases Nat.eq_zero_or_pos n with h0 | h0
    · subst h0; simp at h
    · exact h0
  simp only [posOfCell]
  exact Nat.mod_lt _ hn

theorem cellOf_inj {n : Nat} {p p' : Nat × Nat} (h2 : p.2 < n) (h2' : p'.2 < n)
    (he : cellOf n p = cellOf n p') : p = p' := by
  have := posOfCell_cellOf (n := n) h2
  have := posOfCell_cellOf (n := n) h2'
  rw [← posOfCell_cellOf (n := n) h2, ← posOfCell_cellOf (n := n) h2', he]

theorem posOfCell_inj {n c c' : Nat} (h : c < n * n) (h' : c' < n * n)
    (he : posOfCell n c = posOfCell n c') : c = c' := by
  rw [← cellOf_posOfCell h, ← cellOf_posOfCell h', he]

end Geometry

theorem writeCells_length {α : Type _} (ts : List α) (cs : List Nat) (g : List α) :
    (writeCells g ts cs).length = g.length := by
  induction ts generalizing cs g with
  | nil => rfl
  | cons t ts ih =>
    cases cs with
    | nil => rfl
    | cons c cs' => simp [writeCells, ih, List.length_set]

theorem writeCells_getD_of_not_mem {α : Type _} (ts : List α) (cs : List Nat)
    (g : List α) (c : Nat) (d : α) (h : c ∉ cs) :
    (writeCells g ts cs).getD c d = g.getD c d := by
  induction ts generalizing cs g with
  | nil => rfl
  | cons t ts ih =>
    cases cs with
    | nil => rfl
    | cons c0 cs' =>
      have hne : c0 ≠ c := fun hc => h (hc ▸ List.mem_cons_self _ _)
      have hnm : c ∉ cs' := fun hc => h (List.mem_cons_of_mem _ hc)
      simp only [writeCells]
      rw [ih cs' _ hnm, getD_set_ne _ _ _ _ _ hne]

theorem writeCells_getD_at {α : Type _} (ts : List α) (cs : List Nat) (g : List α)
    (j : Nat) (d : α) (hnd : cs.Nodup) (hlen : ts.length = cs.length)
    (hlt : ∀ c ∈ cs, c < g.length) (hj : j < ts.length) :
    (writeCells g ts cs).getD (cs.getD j 0) d = ts.getD j d := by
  induction ts generalizing cs g j with
  | nil => simp at hj
  | cons t ts ih =>
    cases cs with
    | nil => simp at hlen
    | cons c0 cs' =>
      rcases List.nodup_cons.1 hnd with ⟨hc0, hnd'⟩
      cases j with
      | zero =>
        simp only [writeCells, List.getD_cons_zero]
        rw [writeCells_getD_of_not_mem _ _ _ _ _ hc0]
        exact getD_set_self _ _ _ _ (hlt c0 (List.mem_cons_self _ _))
      | succ j' =>
        simp only [writeCells, List.getD_cons_succ]
        exact ih cs' _ j' hnd' (by simpa using hlen)
          (fun c hc => by
            rw [List.length_set]
            exact hlt c (List.mem_cons_of_mem _ hc))
          (by simpa using hj)

theorem writeCells_countP {α : Type _} (p : α → Bool) (emptyA : α)
    (hp : p emptyA = false) (ts : List α) (cs : List Nat) (g : List α)
    (hnd : cs.Nodup) (hlen : ts.length = cs.length)
    (hfree : ∀ c ∈ cs, c < g.length ∧ g.getD c emptyA = emptyA) :
    (writeCells g ts cs).countP p = g.countP p + ts.countP p := by
  induction ts generalizing cs g with
  | nil => simp [writeCells]
  | cons t ts ih =>
    cases cs with
    | nil => simp at hlen
    | cons c0 cs' =>
      rcases List.nodup_cons.1 hnd with ⟨hc0, hnd'⟩
      rcases hfree c0 (List.mem_cons_self _ _) with ⟨hlt0, hempty0⟩
      simp only [writeCells]
      rw [ih cs' (g.set c0 t) hnd' (by simpa using hlen) ?_]
      · have hset := countP_set g c0 t p emptyA hlt0
        rw [hempty0, hp] at hset
        simp at hset
        simp only [List.countP_cons]
        omega
      · intro c hc
        have hne : c0 ≠ c := fun hcc => hc0 (hcc ▸ hc)
        constructor
        · rw [List.length_set]; exact (hfree c (List.mem_cons_of_mem _ hc)).1
        · rw [getD_set_ne _ _ _ _ _ hne]
          exact (hfree c (List.mem_cons_of_mem _ hc)).2

theorem lookupD_zip (l cs : List Nat) (i d : Nat) (hnd : l.Nodup)
    (hlen : l.length = cs.length) (hi : i ∈ l) :
    ∃ k, k < cs.length ∧ l.getD k 0 = i ∧ lookupD (l.zip cs) i d = cs.getD k 0 := by
  induction l generalizing cs with
  | nil => simp at hi
  | cons a l' ih =>
    cases cs with
    | nil => simp at hlen
    | cons c cs' =>
      by_cases ha : a = i
      · refine ⟨0, by simp, by simpa using ha, ?_⟩
        simp [lookupD, List.zip, ha]
      · have hi' : i ∈ l' := by
          rcases List.mem_cons.1 hi with h | h
          · exact absurd h.symm ha
          · exact h
        rcases ih cs' (List.nodup_cons.1 hnd).2 (by simpa using hlen) hi' with
          ⟨k, hk, hgk, hlook⟩
        refine ⟨k + 1, by simpa using hk, by simpa using hgk, ?_⟩
        simpa [lookupD, List.zip, ha] using hlook

/-! ## Lemmas about the core tick -/

namespace Core

theorem survB_of_survC {s : State} {acts : List Action} {i : Nat}
    (h : survC s acts i = true) : survB s acts i = true := by
  simp only [survC, Bool.and_eq_true] at h
  exact h.1

theorem targeting_length_of_survC {s : State} {acts : List Action} {i : Nat}
    (h : survC s acts i = true) : (targeting s acts (dst s acts i)).length = 1 := by
  simp only [survC, Bool.and_eq_true, decide_eq_true_eq] at h
  exact h.2

theorem insideB_of_survB {s : State} {acts : List Action} {i : Nat}
    (h : survB s acts i = true) : insideB s.n (dst s acts i) = true := by
  simp only [survB, Bool.and_eq_true] at h
  exact h.1

theorem ground_ne_sky_of_survB {s : State} {acts : List Action} {i : Nat}
    (h : survB s acts i = true) :
    groundAt s.n s.ground (toPos (dst s acts i)) ≠ GTile.skyscraper := by
  simp only [survB, Bool.and_eq_true, Bool.not_eq_true', decide_eq_false_iff_not] at h
  exact h.2

theorem mem_targeting {s : State} {acts : List Action} {q : Int × Int} {j : Nat} :
    j ∈ targeting s acts q ↔
      j < s.pos.length ∧ survB s acts j = true ∧ dst s acts j = q := by
  simp [targeting, List.mem_filter, List.mem_range, and_assoc]

theorem targeting_nodup (s : State) (acts : List Action) (q : Int × Int) :
    (targeting s acts q).Nodup :=
  (List.nodup_range _).filter _

theorem dst_inj_of_survC {s : State} {acts : List Action} {i j : Nat}
    (hi : i < s.pos.length) (hj : j < s.pos.length) (hij : i ≠ j)
    (hsi : survC s acts i = true) (hsj : survC s acts j = true) :
    dst s acts i ≠ dst s acts j := by
  intro he
  have h1 : i ∈ targeting s acts (dst s acts i) :=
    mem_targeting.2 ⟨hi, survB_of_survC hsi, rfl⟩
  have h2 : j ∈ targeting s acts (dst s acts i) :=
    mem_targeting.2 ⟨hj, survB_of_survC hsj, he.symm⟩
  have h3 := two_le_length_of_nodup (targeting_nodup s acts _) h1 h2 hij
  rw [targeting_length_of_survC hsi] at h3
  omega

theorem groundD_length (s : State) (acts : List Action) :
    (groundD s acts).length = s.n * s.n := by
  simp [groundD]

theorem groundD_getD {s : State} {acts : List Action} {c : Nat} (hc : c < s.n * s.n) :
    (groundD s acts).getD c GTile.empty =
      if ((List.range s.pos.length).any fun i =>
          clearsCell s acts i && decide (cellOf s.n (toPos (dst s acts i)) = c)) = true
      then GTile.empty else s.ground.getD c GTile.empty := by
  unfold groundD
  exact getD_map_range _ _ _ _ hc

theorem groundD_getD_ge {s : State} {acts : List Action} {c : Nat}
    (hc : s.n * s.n ≤ c) : (groundD s acts).getD c GTile.empty = GTile.empty := by
  have hnone : (groundD s acts)[c]? = none :=
    List.getElem?_eq_none (by rw [groundD_length]; exact hc)
  simp [List.getD, hnone]

theorem groundD_eq_empty {s : State} {acts : List Action} {c i : Nat}
    (hc : c < s.n * s.n) (hi : i < s.pos.length)
    (hcl : clearsCell s acts i = true) (hcell : cellOf s.n (toPos (dst s acts i)) = c) :
    (groundD s acts).getD c GTile.empty = GTile.empty := by
  rw [groundD_getD hc, if_pos]
  exact List.any_eq_true.2 ⟨i, List.mem_range.2 hi, by simp [hcl, hcell]⟩

theorem groundD_eq_orig {s : State} {acts : List Action} {c : Nat}
    (hc : c < s.n * s.n)
    (hno : ∀ i, i < s.pos.length → clearsCell s acts i = true →
      cellOf s.n (toPos (dst s acts i)) ≠ c) :
    (groundD s acts).getD c GTile.empty = s.ground.getD c GTile.empty := by
  rw [groundD_getD hc, if_neg]
  intro hany
  rcases List.any_eq_true.1 hany with ⟨i, hm, hp⟩
  rw [Bool.and_eq_true] at hp
  rcases hp with ⟨hcl, hcell⟩
  exact hno i (List.mem_range.1 hm) hcl (of_decide_eq_true hcell)

theorem station_groundD {s : State} {acts : List Action} {p : Nat × Nat}
    (h : groundAt s.n (groundD s acts) p = GTile.station) :
    groundAt s.n s.ground p = GTile.station := by
  unfold groundAt at h ⊢
  by_cases hc : cellOf s.n p < s.n * s.n
  · rw [groundD_getD hc] at h
    by_cases hany : ((List.range s.pos.length).any fun i =>
        clearsCell s acts i && decide (cellOf s.n (toPos (dst s acts i)) = cellOf s.n p)) = true
    · rw [if_pos hany] at h
      simp at h
    · rw [if_neg hany] at h
      exact h
  · rw [groundD_getD_ge (le_of_not_lt hc)] at h
    simp at h

theorem station_of_onStation {s : State} {acts : List Action} {i : Nat}
    (h : onStation s acts i = true) :
    groundAt s.n s.ground (toPos (dst s acts i)) = GTile.station := by
  simp only [onStation, Bool.and_eq_true, decide_eq_true_eq] at h
  exact station_groundD h.2

theorem onStation_false_of_tile {s : State} {acts : List Action} {i : Nat}
    (h : groundAt s.n s.ground (toPos (dst s acts i)) ≠ GTile.station) :
    onStation s acts i = false := by
  cases hos : onStation s acts i
  · rfl
  · exact absurd (station_of_onStation hos) h

theorem alive_of_surv {P : Params} {s : State} {acts : List Action} {i : Nat}
    (hs : survC s acts i = true) (hb : chargeE P s acts i ≠ 0) :
    alive P s acts i = true := by
  simp [alive, battCrash, hs, hb]

theorem battCrash_false_of_charge {P : Params} {s : State} {acts : List Action} {i : Nat}
    (hb : chargeE P s acts i ≠ 0) : battCrash P s acts i = false := by
  simp [battCrash, hb]

theorem alive_false_of_not_survC {P : Params} {s : State} {acts : List Action} {i : Nat}
    (h : survC s acts i = false) : alive P s acts i = false := by
  simp [alive, h]

theorem mem_aResp {P : Params} {s : State} {acts : List Action} {i : Nat} :
    i ∈ aResp P s acts ↔ i < s.pos.length ∧ alive P s acts i = false := by
  simp [aResp, List.mem_filter, List.mem_range]

theorem aResp_nodup (P : Params) (s : State) (acts : List Action) :
    (aResp P s acts).Nodup :=
  (List.nodup_range _).filter _

theorem mem_alivePosCells {P : Params} {s : State} {acts : List Action} {c : Nat} :
    c ∈ alivePosCells P s acts ↔
      ∃ i, i < s.pos.length ∧ alive P s acts i = true ∧
        cellOf s.n (toPos (dst s acts i)) = c := by
  simp only [alivePosCells, List.mem_filterMap, List.mem_range]
  constructor
  · rintro ⟨i, hi, hsome⟩
    by_cases ha : alive P s acts i = true
    · rw [if_pos ha] at hsome
      exact ⟨i, hi, ha, Option.some.inj hsome⟩
    · rw [if_neg ha] at hsome
      exact absurd hsome (by simp)
  · rintro ⟨i, hi, ha, hcell⟩
    exact ⟨i, hi, by rw [if_pos ha, hcell]⟩

theorem mem_freeForItems {n : Nat} {g : List GTile} {occ : List Nat} {c : Nat} :
    c ∈ freeForItems n g occ ↔
      c < n * n ∧ g.getD c GTile.empty = GTile.empty ∧ c ∉ occ := by
  simp [freeForItems, List.mem_filter, List.mem_range, and_assoc]

theorem mem_freeForDrones {n : Nat} {occ : List Nat} {c : Nat} :
    c ∈ freeForDrones n occ ↔ c < n * n ∧ c ∉ occ := by
  simp [freeForDrones, List.mem_filter, List.mem_range]

theorem freeForItems_nodup (n : Nat) (g : List GTile) (occ : List Nat) :
    (freeForItems n g occ).Nodup :=
  (List.nodup_range _).filter _

theorem freeForDrones_nodup (n : Nat) (occ : List Nat) :
    (freeForDrones n occ).Nodup :=
  (List.nodup_range _).filter _

theorem freeBoth_nodup (s : State) : (freeBoth s).Nodup :=
  freeForItems_nodup _ _ _

theorem carryAfter_getD {P : Params} {s : State} {acts : List Action} {i : Nat}
    (hi : i < s.pos.length) :
    (carryAfter P s acts).getD i false =
      if alive P s acts i then carryD s acts i else false := by
  unfold carryAfter
  exact getD_map_range _ _ _ _ hi

theorem chargeAfter_getD {P : Params} {s : State} {acts : List Action} {i : Nat}
    (hi : i < s.pos.length) :
    (chargeAfter P s acts).getD i 0 =
      if alive P s acts i then chargeE P s acts i else 100 := by
  unfold chargeAfter
  exact getD_map_range _ _ _ _ hi

theorem posAfter_getD {P : Params} {s : State} {acts : List Action} {ac : List Nat} {i : Nat}
    (hi : i < s.pos.length) :
    (posAfter P s acts ac).getD i (0, 0) =
      if alive P s acts i then toPos (dst s acts i)
      else posOfCell s.n (lookupD ((aResp P s acts).zip ac) i 0) := by
  unfold posAfter
  exact getD_map_range _ _ _ _ hi

theorem carryAfter_length (P : Params) (s : State) (acts : List Action) :
    (carryAfter P s acts).length = s.pos.length := by
  simp [carryAfter]

theorem posAfter_length (P : Params) (s : State) (acts : List Action) (ac : List Nat) :
    (posAfter P s acts ac).length = s.pos.length := by
  simp [posAfter]

theorem stepMid_ok_elim {P : Params} {rng : Rng} {s : State} {acts : List Action}
    {mid : Mid} (h : stepMid P rng s acts = Except.ok mid) :
    ∃ gc rng1 ac rng2,
      pickCells (freeForItems s.n (groundD s acts) (alivePosCells P s acts))
          (gResp P s acts).length rng = some (gc, rng1) ∧
      pickCells (freeForDrones s.n (alivePosCells P s acts))
          (aResp P s acts).length rng1 = some (ac, rng2) ∧
      mid = buildMid P s acts gc ac := by
  unfold stepMid at h
  split at h
  · exact absurd h (by simp)
  · rename_i gc rng1 h1
    split at h
    · exact absurd h (by simp)
    · rename_i ac rng2 h2
      simp only [Except.ok.injEq] at h
      exact ⟨gc, rng1, ac, rng2, h1, h2, h.symm⟩

theorem step_ok_elim {P : Params} {rng : Rng} {s : State} {acts : List Action}
    {out : State × List Int × List Bool × Info}
    (h : step P rng s acts = Except.ok out) :
    ∃ mid, stepMid P rng s acts = Except.ok mid ∧ out = finishStep mid := by
  unfold step at h
  rcases hm : stepMid P rng s acts with e | mid
  · rw [hm] at h
    exact absurd h (by simp [Except.map])
  · rw [hm] at h
    simp only [Except.map, Except.ok.injEq] at h
    exact ⟨mid, rfl, h.symm⟩

theorem finishStep_eq (m : Mid) :
    finishStep m =
      (⟨m.n, (pickupPairs m.landed (m.ground, m.carrying)).1, m.pos,
          (pickupPairs m.landed (m.ground, m.carrying)).2, m.charge⟩,
        m.rewards, m.dones, m.info) := by
  unfold finishStep
  rcases h : pickupPairs m.landed (m.ground, m.carrying) with ⟨g, cr⟩
  simp [h]

theorem pickupPairs_ground_not_mem (pairs : List (Nat × Nat)) (g : List GTile)
    (cr : List Bool) (c : Nat) (d : GTile) (h : c ∉ pairs.map Prod.snd) :
    (pickupPairs pairs (g, cr)).1.getD c d = g.getD c d := by
  induction pairs generalizing g cr with
  | nil => rfl
  | cons p rest ih =>
    rcases p with ⟨i0, c0⟩
    have hne : c0 ≠ c := fun hc => h (by simp [hc])
    have hrest : c ∉ rest.map Prod.snd := fun hc => h (by simp [hc])
    unfold pickupPairs
    by_cases hp : g.getD c0 GTile.empty = GTile.packet
    · rw [if_pos hp, ih _ _ hrest, getD_set_ne _ _ _ _ _ hne]
    · rw [if_neg hp, ih _ _ hrest]

theorem pickupPairs_carry_not_mem (pairs : List (Nat × Nat)) (g : List GTile)
    (cr : List Bool) (i : Nat) (d : Bool) (h : i ∉ pairs.map Prod.fst) :
    (pickupPairs pairs (g, cr)).2.getD i d = cr.getD i d := by
  induction pairs generalizing g cr with
  | nil => rfl
  | cons p rest ih =>
    rcases p with ⟨i0, c0⟩
    have hne : i0 ≠ i := fun hc => h (by simp [hc])
    have hrest : i ∉ rest.map Prod.fst := fun hc => h (by simp [hc])
    unfold pickupPairs
    by_cases hp : g.getD c0 GTile.empty = GTile.packet
    · rw [if_pos hp, ih _ _ hrest, getD_set_ne _ _ _ _ _ hne]
    · rw [if_neg hp, ih _ _ hrest]

theorem pickupPairs_spec (pairs : List (Nat × Nat)) (g : List GTile) (cr : List Bool)
    (i c : Nat) (hfst : (pairs.map Prod.fst).Nodup) (hsnd : (pairs.map Prod.snd).Nodup)
    (hmem : (i, c) ∈ pairs) (hpk : g.getD c GTile.empty = GTile.packet)
    (hc : c < g.length) (hi : i < cr.length) :
    (pickupPairs pairs (g, cr)).1.getD c GTile.empty = GTile.empty ∧
      (pickupPairs pairs (g, cr)).2.getD i false = true := by
  induction pairs generalizing g cr with
  | nil => simp at hmem
  | cons p rest ih =>
    rcases p with ⟨i0, c0⟩
    rw [List.map_cons] at hfst hsnd
    rcases List.nodup_cons.1 hfst with ⟨hfst0, hfst'⟩
    rcases List.nodup_cons.1 hsnd with ⟨hsnd0, hsnd'⟩
    rcases List.mem_cons.1 hmem with heq | hmem'
    · have hi0 : i0 = i := congrArg Prod.fst heq.symm
      have hc0 : c0 = c := congrArg Prod.snd heq.symm
      subst hi0
      subst hc0
      unfold pickupPairs
      rw [if_pos hpk]
      constructor
      · rw [pickupPairs_ground_not_mem _ _ _ _ _ hsnd0]
        exact getD_set_self _ _ _ _ hc
      · rw [pickupPairs_carry_not_mem _ _ _ _ _ hfst0]
        exact getD_set_self _ _ _ _ hi
    · have hc0c : c0 ≠ c := by
        intro hcc
        exact (hcc ▸ hsnd0) (List.mem_map.2 ⟨(i, c), hmem', rfl⟩)
      unfold pickupPairs
      by_cases hp : g.getD c0 GTile.empty = GTile.packet
      · rw [if_pos hp]
        refine ih _ _ hfst' hsnd' hmem' ?_ ?_ ?_
        · rw [getD_set_ne _ _ _ _ _ hc0c]
          exact hpk
        · rw [List.length_set]
          exact hc
        · rw [List.length_set]
          exact hi
      · rw [if_neg hp]
        exact ih _ _ hfst' hsnd' hmem' hpk hc hi

theorem survC_of_picksUp {s : State} {acts : List Action} {i : Nat}
    (h : picksUp s acts i = true) : survC s acts i = true := by
  simp only [picksUp, Bool.and_eq_true] at h
  exact h.1.1

theorem survC_of_delivers {s : State} {acts : List Action} {i : Nat}
    (h : delivers s acts i = true) : survC s acts i = true := by
  simp only [delivers, Bool.and_eq_true] at h
  exact h.1.1

theorem survC_of_clears {s : State} {acts : List Action} {i : Nat}
    (h : clearsCell s acts i = true) : survC s acts i = true := by
  simp only [clearsCell, Bool.or_eq_true] at h
  rcases h with h' | h'
  · exact survC_of_picksUp h'
  · exact survC_of_delivers h'

theorem no_other_clears {s : State} {acts : List Action} {i : Nat}
    (hi : i < s.pos.length) (hsurv : survC s acts i = true) :
    ∀ j, j < s.pos.length → clearsCell s acts j = true →
      cellOf s.n (toPos (dst s acts j)) = cellOf s.n (toPos (dst s acts i)) → j = i := by
  intro j hj hcl hcell
  by_contra hne
  have hsj : survC s acts j = true := survC_of_clears hcl
  have hinj : insideB s.n (dst s acts j) = true := insideB_of_survB (survB_of_survC hsj)
  have hini : insideB s.n (dst s acts i) = true := insideB_of_survB (survB_of_survC hsurv)
  have h1 : toPos (dst s acts j) = toPos (dst s acts i) :=
    cellOf_inj (toPos_snd_lt hinj) (toPos_snd_lt hini) hcell
  exact dst_inj_of_survC hj hi hne hsj hsurv (toPos_inj hinj hini h1)

theorem step_outputs {P : Params} {rng : Rng} {s : State} {acts : List Action}
    {s' : State} {rw : List Int} {dn : List Bool} {info : Info} {i : Nat}
    (hstep : step P rng s acts = Except.ok (s', rw, dn, info))
    (hi : i < s.pos.length) :
    rw.getD i 0 = rewardOf P s acts i ∧
      dn.getD i false = !(alive P s acts i) ∧
      info = ⟨aResp P s acts, gResp P s acts⟩ := by
  rcases step_ok_elim hstep with ⟨mid, hmid, hout⟩
  rcases stepMid_ok_elim hmid with ⟨gc, rng1, ac, rng2, h1, h2, hb⟩
  subst hb
  rw [finishStep_eq] at hout
  simp only [buildMid, Prod.mk.injEq] at hout
  rcases hout with ⟨_, hrw, hdn, hinfo⟩
  subst hrw
  subst hdn
  subst hinfo
  refine ⟨getD_map_range _ _ _ _ hi, getD_map_range _ _ _ _ hi, rfl⟩

theorem step_alive_facts {P : Params} {rng : Rng} {s : State} {acts : List Action}
    {s' : State} {rw : List Int} {dn : List Bool} {info : Info} {i : Nat}
    (hstep : step P rng s acts = Except.ok (s', rw, dn, info))
    (hi : i < s.pos.length) (halive : alive P s acts i = true) :
    s'.carrying.getD i false = carryD s acts i ∧
      s'.ground.getD (cellOf s.n (toPos (dst s acts i))) GTile.empty
        = (groundD s acts).getD (cellOf s.n (toPos (dst s acts i))) GTile.empty ∧
      s'.pos.getD i (0, 0) = toPos (dst s acts i) := by
  rcases step_ok_elim hstep with ⟨mid, hmid, hout⟩
  rcases stepMid_ok_elim hmid with ⟨gc, rng1, ac, rng2, h1, h2, hb⟩
  subst hb
  rw [finishStep_eq] at hout
  simp only [buildMid, Prod.mk.injEq] at hout
  rcases hout with ⟨hs', _, _, _⟩
  rcases pickCells_spec _ _ _ _ _ h1 with ⟨hgclen, hgcsub, _⟩
  rcases pickCells_spec _ _ _ _ _ h2 with ⟨haclen, hacsub, _⟩
  have hmapfst : ((aResp P s acts).zip ac).map Prod.fst = aResp P s acts :=
    List.map_fst_zip _ _ (le_of_eq haclen.symm)
  have hmapsnd : ((aResp P s acts).zip ac).map Prod.snd = ac :=
    List.map_snd_zip _ _ (le_of_eq haclen)
  have hinotin : i ∉ aResp P s acts := by
    intro hc
    rw [(mem_aResp.1 hc).2] at halive
    exact Bool.noConfusion halive
  have hcellmem : cellOf s.n (toPos (dst s acts i)) ∈ alivePosCells P s acts :=
    mem_alivePosCells.2 ⟨i, hi, halive, rfl⟩
  have hcellnotac : cellOf s.n (toPos (dst s acts i)) ∉ ac := by
    intro hc
    exact (mem_freeForDrones.1 (hacsub _ hc)).2 hcellmem
  have hcellnotgc : cellOf s.n (toPos (dst s acts i)) ∉ gc := by
    intro hc
    exact (mem_freeForItems.1 (hgcsub _ hc)).2.2 hcellmem
  subst hs'
  refine ⟨?_, ?_, ?_⟩
  · show (pickupPairs _ _).2.getD i false = _
    rw [pickupPairs_carry_not_mem _ _ _ _ _ (by rw [hmapfst]; exact hinotin),
      carryAfter_getD hi, if_pos halive]
  · show (pickupPairs _ _).1.getD _ GTile.empty = _
    rw [pickupPairs_ground_not_mem _ _ _ _ _ (by rw [hmapsnd]; exact hcellnotac),
      writeCells_getD_of_not_mem _ _ _ _ _ hcellnotgc]
  · rw [posAfter_getD hi, if_pos halive]

theorem survC_false_of_survB_false {s : State} {acts : List Action} {i : Nat}
    (h : survB s acts i = false) : survC s acts i = false := by
  simp [survC, h]

theorem rewardOf_crashed {P : Params} {s : State} {acts : List Action} {i : Nat}
    (h : survC s acts i = false) : rewardOf P s acts i = P.crashReward := by
  simp [rewardOf, picksUp, delivers, onStation, battCrash, h]

/-- Claim C1: for every step and surviving drone `i` carrying a package whose
destination holds a Dropzone, delivery completes on any Dropzone (the core has
no per-package identity, so no index condition appears): the carrying flag
clears, the reward is `delivery_reward`, the ground cell ends empty, and a
replacement Dropzone enters the respawn schedule; a non-carrying drone landing
on the Dropzone changes nothing (flag still clear, no reward, tile intact).
The drone is assumed not to battery-crash this tick, isolating the delivery
rule from the independent Phase-E crash rule. -/
theorem delivery_on_any_dropzone (P : Params) (rng : Rng) (s : State)
    (acts : List Action) (i : Nat) (s' : State) (rw : List Int) (dn : List Bool)
    (info : Info) (hleg : Legal s) (hi : i < s.pos.length)
    (hsurv : survC s acts i = true)
    (hz : groundAt s.n s.ground (toPos (dst s acts i)) = GTile.dropzone)
    (hch : chargeE P s acts i ≠ 0)
    (hstep : step P rng s acts = Except.ok (s', rw, dn, info)) :
    (carryB s i = true →
      s'.carrying.getD i false = false ∧
      rw.getD i 0 = P.deliveryReward ∧
      s'.ground.getD (cellOf s.n (toPos (dst s acts i))) GTile.empty = GTile.empty ∧
      GTile.dropzone ∈ info.groundRespawns ∧
      dn.getD i false = false) ∧
    (carryB s i = false →
      s'.carrying.getD i false = false ∧
      rw.getD i 0 = 0 ∧
      s'.ground.getD (cellOf s.n (toPos (dst s acts i))) GTile.empty = GTile.dropzone ∧
      dn.getD i false = false) := by
  have halive : alive P s acts i = true := alive_of_surv hsurv hch
  have hin : insideB s.n (dst s acts i) = true := insideB_of_survB (survB_of_survC hsurv)
  have hc : cellOf s.n (toPos (dst s acts i)) < s.n * s.n :=
    cellOf_lt (toPos_fst_lt hin) (toPos_snd_lt hin)
  have honst : onStation s acts i = false := onStation_false_of_tile (by rw [hz]; simp)
  have hbc : battCrash P s acts i = false := battCrash_false_of_charge hch
  have hpkF : picksUp s acts i = false := by simp [picksUp, hz]
  rcases step_outputs hstep hi with ⟨hrw, hdn, hinfo⟩
  rcases step_alive_facts hstep hi halive with ⟨hcarry, hground, _⟩
  constructor
  · intro hcb
    have hdel : delivers s acts i = true := by simp [delivers, hsurv, hz, hcb]
    have hclears : clearsCell s acts i = true := by simp [clearsCell, hdel]
    refine ⟨?_, ?_, ?_, ?_, ?_⟩
    · rw [hcarry]
      simp [carryD, hpkF, hdel]
    · rw [hrw]
      simp [rewardOf, hsurv, hpkF, hdel, honst, hbc]
    · rw [hground]
      exact groundD_eq_empty hc hi hclears rfl
    · rw [hinfo]
      have hd : GTile.dropzone ∈ gRespD s acts :=
        List.mem_filterMap.2 ⟨i, List.mem_range.2 hi, by rw [if_pos hdel]⟩
      show GTile.dropzone ∈ gResp P s acts
      unfold gResp
      simp only [List.mem_append]
      exact Or.inl (Or.inr hd)
    · rw [hdn, halive]
      rfl
  · intro hcb
    have hdel : delivers s acts i = false := by simp [delivers, hcb]
    have hclears : clearsCell s acts i = false := by simp [clearsCell, hpkF, hdel]
    refine ⟨?_, ?_, ?_, ?_⟩
    · rw [hcarry]
      unfold carryD
      rw [hpkF, hdel]
      simpa using hcb
    · rw [hrw]
      simp [rewardOf, hsurv, hpkF, hdel, honst, hbc]
    · rw [hground, groundD_eq_orig hc ?_]
      · exact hz
      · intro j hj hcl hcell
        have hji := no_other_clears hi hsurv j hj hcl hcell
        subst hji
        rw [hcl] at hclears
        exact Bool.noConfusion hclears
    · rw [hdn, halive]
      rfl

/-- Claim C4: a surviving drone that is already carrying and moves onto a
Packet cell changes nothing: its carrying flag stays `true` and the Packet
stays on the ground (the core tracks no package identity, so "keeps the
package it was carrying" is the unchanged flag).  No reward accrues and the
drone is not done.  The drone is assumed not to battery-crash this tick. -/
theorem carrying_drone_leaves_packet (P : Params) (rng : Rng) (s : State)
    (acts : List Action) (i : Nat) (s' : State) (rw : List Int) (dn : List Bool)
    (info : Info) (hleg : Legal s) (hi : i < s.pos.length)
    (hsurv : survC s acts i = true)
    (hz : groundAt s.n s.ground (toPos (dst s acts i)) = GTile.packet)
    (hcb : carryB s i = true)
    (hch : chargeE P s acts i ≠ 0)
    (hstep : step P rng s acts = Except.ok (s', rw, dn, info)) :
    s'.carrying.getD i false = true ∧
      s'.ground.getD (cellOf s.n (toPos (dst s acts i))) GTile.empty = GTile.packet ∧
      rw.getD i 0 = 0 ∧
      dn.getD i false = false := by
  have halive : alive P s acts i = true := alive_of_surv hsurv hch
  have hin : insideB s.n (dst s acts i) = true := insideB_of_survB (survB_of_survC hsurv)
  have hc : cellOf s.n (toPos (dst s acts i)) < s.n * s.n :=
    cellOf_lt (toPos_fst_lt hin) (toPos_snd_lt hin)
  have honst : onStation s acts i = false := onStation_false_of_tile (by rw [hz]; simp)
  have hbc : battCrash P s acts i = false := battCrash_false_of_charge hch
  have hpkF : picksUp s acts i = false := by simp [picksUp, hcb]
  have hdel : delivers s acts i = false := by simp [delivers, hz]
  have hclears : clearsCell s acts i = false := by simp [clearsCell, hpkF, hdel]
  rcases step_outputs hstep hi with ⟨hrw, hdn, _⟩
  rcases step_alive_facts hstep hi halive with ⟨hcarry, hground, _⟩
  refine ⟨?_, ?_, ?_, ?_⟩
  · rw [hcarry]
    unfold carryD
    rw [hpkF, hdel]
    simpa using hcb
  · rw [hground, groundD_eq_orig hc ?_]
    · exact hz
    · intro j hj hcl hcell
      have hji := no_other_clears hi hsurv j hj hcl hcell
      subst hji
      rw [hcl] at hclears
      exact Bool.noConfusion hclears
  · rw [hrw]
    simp [rewardOf, hsurv, hpkF, hdel, honst, hbc]
  · rw [hdn, halive]
    rfl

/-- Claim C3 (amended): a surviving, non-carrying drone whose destination
holds a Packet picks it up: the flag is set, the ground cell is cleared and
the reward is `pickup_reward`.  Contrary to the spec's Phase D, no
replacement Packet is scheduled (the repository's test pins this down):
Packets enter the respawn schedule only as crash losses, so any scheduled
Packet witnesses some drone that crashed in Phase B/C or by battery.  The
drone is assumed not to battery-crash this tick. -/
theorem pickup_absorbs_packet (P : Params) (rng : Rng) (s : State)
    (acts : List Action) (i : Nat) (s' : State) (rw : List Int) (dn : List Bool)
    (info : Info) (hleg : Legal s) (hi : i < s.pos.length)
    (hsurv : survC s acts i = true)
    (hz : groundAt s.n s.ground (toPos (dst s acts i)) = GTile.packet)
    (hcb : carryB s i = false)
    (hch : chargeE P s acts i ≠ 0)
    (hstep : step P rng s acts = Except.ok (s', rw, dn, info)) :
    s'.carrying.getD i false = true ∧
      s'.ground.getD (cellOf s.n (toPos (dst s acts i))) GTile.empty = GTile.empty ∧
      rw.getD i 0 = P.pickupReward ∧
      dn.getD i false = false ∧
      (GTile.packet ∈ info.groundRespawns →
        ∃ j, j < s.pos.length ∧
          (survC s acts j = false ∨ battCrash P s acts j = true)) := by
  have halive : alive P s acts i = true := alive_of_surv hsurv hch
  have hin : insideB s.n (dst s acts i) = true := insideB_of_survB (survB_of_survC hsurv)
  have hc : cellOf s.n (toPos (dst s acts i)) < s.n * s.n :=
    cellOf_lt (toPos_fst_lt hin) (toPos_snd_lt hin)
  have honst : onStation s acts i = false := onStation_false_of_tile (by rw [hz]; simp)
  have hbc : battCrash P s acts i = false := battCrash_false_of_charge hch
  have hpkT : picksUp s acts i = true := by simp [picksUp, hsurv, hz, hcb]
  have hdel : delivers s acts i = false := by simp [delivers, hcb]
  have hclears : clearsCell s acts i = true := by simp [clearsCell, hpkT]
  rcases step_outputs hstep hi with ⟨hrw, hdn, hinfo⟩
  rcases step_alive_facts hstep hi halive with ⟨hcarry, hground, _⟩
  refine ⟨?_, ?_, ?_, ?_, ?_⟩
  · rw [hcarry]
    unfold carryD
    rw [hpkT]
    simp
  · rw [hground]
    exact groundD_eq_empty hc hi hclears rfl
  · rw [hrw]
    simp [rewardOf, hsurv, hpkT, hdel, honst, hbc]
  · rw [hdn, halive]
    rfl
  · intro hmem
    rw [hinfo] at hmem
    replace hmem : GTile.packet ∈ gResp P s acts := hmem
    unfold gResp at hmem
    simp only [List.mem_append] at hmem
    rcases hmem with ((hB | hC) | hD) | hE
    · rcases List.mem_filterMap.1 hB with ⟨j, hj, hsome⟩
      by_cases hcond : (!(survB s acts j) && carryB s j) = true
      · rw [Bool.and_eq_true, Bool.not_eq_true'] at hcond
        exact ⟨j, List.mem_range.1 hj, Or.inl (survC_false_of_survB_false hcond.1)⟩
      · rw [if_neg hcond] at hsome
        exact absurd hsome (by simp)
    · rcases List.mem_filterMap.1 hC with ⟨j, hj, hsome⟩
      by_cases hcond : (survB s acts j && !(survC s acts j) && carryB s j) = true
      · rw [Bool.and_eq_true, Bool.and_eq_true, Bool.not_eq_true'] at hcond
        exact ⟨j, List.mem_range.1 hj, Or.inl hcond.1.2⟩
      · rw [if_neg hcond] at hsome
        exact absurd hsome (by simp)
    · rcases List.mem_filterMap.1 hD with ⟨j, hj, hsome⟩
      by_cases hcond : delivers s acts j = true
      · rw [if_pos hcond] at hsome
        exact absurd hsome (by simp)
      · rw [if_neg hcond] at hsome
        exact absurd hsome (by simp)
    · rcases List.mem_filterMap.1 hE with ⟨j, hj, hsome⟩
      by_cases hcond : (battCrash P s acts j && carryD s acts j) = true
      · rw [Bool.and_eq_true] at hcond
        exact ⟨j, List.mem_range.1 hj, Or.inr hcond.1⟩
      · rw [if_neg hcond] at hsome
        exact absurd hsome (by simp)

/-- Claim C2: whenever two or more drones that survived the boundary/obstacle
phase share a destination cell, every member `k` of that destination group
crashes: it gets `crash_reward`, is marked done, is scheduled for air respawn,
and a carried package is scheduled for ground respawn as a Packet. -/
theorem collision_group_crashes (P : Params) (rng : Rng) (s : State)
    (acts : List Action) (i j k : Nat) (s' : State) (rw : List Int) (dn : List Bool)
    (info : Info)
    (hi : i < s.pos.length) (hj : j < s.pos.length) (hk : k < s.pos.length)
    (hij : i ≠ j)
    (hsBi : survB s acts i = true) (hsBj : survB s acts j = true)
    (hsBk : survB s acts k = true)
    (hdij : dst s acts i = dst s acts j) (hdik : dst s acts k = dst s acts i)
    (hstep : step P rng s acts = Except.ok (s', rw, dn, info)) :
    survC s acts k = false ∧
      rw.getD k 0 = P.crashReward ∧
      dn.getD k false = true ∧
      k ∈ info.airRespawns ∧
      (carryB s k = true → GTile.packet ∈ info.groundRespawns) := by
  have hmi : i ∈ targeting s acts (dst s acts k) :=
    mem_targeting.2 ⟨hi, hsBi, hdik.symm⟩
  have hmj : j ∈ targeting s acts (dst s acts k) :=
    mem_targeting.2 ⟨hj, hsBj, hdij ▸ hdik.symm⟩
  have h2le : 2 ≤ (targeting s acts (dst s acts k)).length :=
    two_le_length_of_nodup (targeting_nodup s acts _) hmi hmj hij
  have hlen1 : (targeting s acts (dst s acts k)).length ≠ 1 := by omega
  have hsCk : survC s acts k = false := by
    simp [survC, hlen1]
  have halk : alive P s acts k = false := alive_false_of_not_survC hsCk
  rcases step_outputs hstep hk with ⟨hrw, hdn, hinfo⟩
  refine ⟨hsCk, ?_, ?_, ?_, ?_⟩
  · rw [hrw]
    exact rewardOf_crashed hsCk
  · rw [hdn, halk]
    rfl
  · rw [hinfo]
    exact mem_aResp.2 ⟨hk, halk⟩
  · intro hcb
    rw [hinfo]
    have hC : GTile.packet ∈ gRespC s acts := by
      refine List.mem_filterMap.2 ⟨k, List.mem_range.2 hk, ?_⟩
      rw [if_pos]
      rw [Bool.and_eq_true, Bool.and_eq_true, Bool.not_eq_true']
      exact ⟨⟨hsBk, hsCk⟩, hcb⟩
    show GTile.packet ∈ gResp P s acts
    unfold gResp
    simp only [List.mem_append]
    exact Or.inl (Or.inl (Or.inr hC))

theorem insideB_cast {n : Nat} {p : Nat × Nat} (h1 : p.1 < n) (h2 : p.2 < n) :
    insideB n ((p.1 : Int), (p.2 : Int)) = true := by
  simp only [insideB, Bool.and_eq_true, decide_eq_true_eq]
  refine ⟨⟨⟨by positivity, ?_⟩, by positivity⟩, ?_⟩ <;> exact_mod_cast ‹_›

/-- Claim C6: two drones on adjacent cells whose intents move each into the
other's current cell have distinct destinations (each targets the other's
origin), so the collision rule does not fire between them: they pass through
each other, both survive the tick and end up with exchanged positions.  The
hypotheses scope out the other, independent crash rules the claim is not
about: no skyscraper sits under either cell, no third drone targets either
cell, and neither battery reaches zero. -/
theorem swap_pass_through (P : Params) (rng : Rng) (s : State)
    (acts : List Action) (i j : Nat) (s' : State) (rw : List Int) (dn : List Bool)
    (info : Info) (hleg : Legal s)
    (hi : i < s.pos.length) (hj : j < s.pos.length) (hij : i ≠ j)
    (hdi : dst s acts i =
      (((s.pos.getD j (0, 0)).1 : Int), ((s.pos.getD j (0, 0)).2 : Int)))
    (hdj : dst s acts j =
      (((s.pos.getD i (0, 0)).1 : Int), ((s.pos.getD i (0, 0)).2 : Int)))
    (hne : s.pos.getD i (0, 0) ≠ s.pos.getD j (0, 0))
    (hski : groundAt s.n s.ground (s.pos.getD i (0, 0)) ≠ GTile.skyscraper)
    (hskj : groundAt s.n s.ground (s.pos.getD j (0, 0)) ≠ GTile.skyscraper)
    (hthird : ∀ k, k < s.pos.length → k ≠ i → k ≠ j →
      dst s acts k ≠ dst s acts i ∧ dst s acts k ≠ dst s acts j)
    (hchi : chargeE P s acts i ≠ 0) (hchj : chargeE P s acts j ≠ 0)
    (hstep : step P rng s acts = Except.ok (s', rw, dn, info)) :
    dst s acts i ≠ dst s acts j ∧
      s'.pos.getD i (0, 0) = s.pos.getD j (0, 0) ∧
      s'.pos.getD j (0, 0) = s.pos.getD i (0, 0) ∧
      dn.getD i false = false ∧
      dn.getD j false = false := by
  rcases hleg with ⟨-, -, -, -, hbound⟩
  have hpi := hbound _ (getD_mem_of_lt (0, 0) hi)
  have hpj := hbound _ (getD_mem_of_lt (0, 0) hj)
  have htoi : toPos (dst s acts i) = s.pos.getD j (0, 0) := by
    rw [hdi, toPos_cast]
  have htoj : toPos (dst s acts j) = s.pos.getD i (0, 0) := by
    rw [hdj, toPos_cast]
  have hdstne : dst s acts i ≠ dst s acts j := by
    rw [hdi, hdj]
    intro heq
    apply hne
    have h1 : ((s.pos.getD j (0, 0)).1 : Int) = (s.pos.getD i (0, 0)).1 :=
      congrArg Prod.fst heq
    have h2 : ((s.pos.getD j (0, 0)).2 : Int) = (s.pos.getD i (0, 0)).2 :=
      congrArg Prod.snd heq
    refine Prod.ext ?_ ?_ <;> [skip; skip] <;> omega
  have hsBi : survB s acts i = true := by
    simp only [survB, Bool.and_eq_true, Bool.not_eq_true', decide_eq_false_iff_not]
    refine ⟨by rw [hdi]; exact insideB_cast hpj.1 hpj.2, by rw [htoi]; exact hskj⟩
  have hsBj : survB s acts j = true := by
    simp only [survB, Bool.and_eq_true, Bool.not_eq_true', decide_eq_false_iff_not]
    refine ⟨by rw [hdj]; exact insideB_cast hpi.1 hpi.2, by rw [htoj]; exact hski⟩
  have huniq : ∀ x ∈ targeting s acts (dst s acts i), x = i := by
    intro x hx
    rcases mem_targeting.1 hx with ⟨hxlt, hxB, hxd⟩
    by_contra hxi
    by_cases hxj : x = j
    · subst hxj
      exact hdstne hxd.symm
    · exact (hthird x hxlt hxi hxj).1 hxd
  have huniqj : ∀ x ∈ targeting s acts (dst s acts j), x = j := by
    intro x hx
    rcases mem_targeting.1 hx with ⟨hxlt, hxB, hxd⟩
    by_contra hxj
    by_cases hxi : x = i
    · subst hxi
      exact hdstne hxd
    · exact (hthird x hxlt hxi hxj).2 hxd
  have hsCi : survC s acts i = true := by
    have hmi : i ∈ targeting s acts (dst s acts i) := mem_targeting.2 ⟨hi, hsBi, rfl⟩
    simp [survC, hsBi,
      length_eq_one_of_unique hmi huniq (targeting_nodup s acts _)]
  have hsCj : survC s acts j = true := by
    have hmj : j ∈ targeting s acts (dst s acts j) := mem_targeting.2 ⟨hj, hsBj, rfl⟩
    simp [survC, hsBj,
      length_eq_one_of_unique hmj huniqj (targeting_nodup s acts _)]
  have hai : alive P s acts i = true := alive_of_surv hsCi hchi
  have haj : alive P s acts j = true := alive_of_surv hsCj hchj
  rcases step_outputs hstep hi with ⟨-, hdni, -⟩
  rcases step_outputs hstep hj with ⟨-, hdnj, -⟩
  rcases step_alive_facts hstep hi hai with ⟨-, -, hposi⟩
  rcases step_alive_facts hstep hj haj with ⟨-, -, hposj⟩
  refine ⟨hdstne, ?_, ?_, ?_, ?_⟩
  · rw [hposi, htoi]
  · rw [hposj, htoj]
  · rw [hdni, hai]
    rfl
  · rw [hdnj, haj]
    rfl

/-- Claim C7: a drone respawned by the Spawner onto a cell that (after the
ground respawn) holds a Packet immediately holds it: its carrying flag is set
and the ground cell is cleared, while the tick's rewards, dones and respawn
schedule are exactly those fixed before the free pickup — no reward is paid
for this pickup and no replacement Packet is scheduled. -/
theorem respawn_free_pickup (P : Params) (rng : Rng) (s : State)
    (acts : List Action) (mid : Mid) (i c : Nat)
    (hmid : stepMid P rng s acts = Except.ok mid)
    (hmem : (i, c) ∈ mid.landed)
    (hpk : mid.ground.getD c GTile.empty = GTile.packet) :
    ∃ s' : State,
      step P rng s acts = Except.ok (s', mid.rewards, mid.dones, mid.info) ∧
      s'.carrying.getD i false = true ∧
      s'.ground.getD c GTile.empty = GTile.empty ∧
      s'.pos = mid.pos ∧ s'.charge = mid.charge := by
  rcases stepMid_ok_elim hmid with ⟨gc, rng1, ac, rng2, h1, h2, hb⟩
  rcases pickCells_spec _ _ _ _ _ h2 with ⟨haclen, hacsub, hacnd⟩
  have hacnodup : ac.Nodup := hacnd (freeForDrones_nodup _ _)
  have hlanded : mid.landed = (aResp P s acts).zip ac := by rw [hb]; rfl
  have hmapfst : (mid.landed).map Prod.fst = aResp P s acts := by
    rw [hlanded]
    exact List.map_fst_zip _ _ (le_of_eq haclen.symm)
  have hmapsnd : (mid.landed).map Prod.snd = ac := by
    rw [hlanded]
    exact List.map_snd_zip _ _ (le_of_eq haclen)
  have hfstnd : (mid.landed.map Prod.fst).Nodup := by
    rw [hmapfst]
    exact aResp_nodup P s acts
  have hsndnd : (mid.landed.map Prod.snd).Nodup := by
    rw [hmapsnd]
    exact hacnodup
  have hiac : i ∈ aResp P s acts ∧ c ∈ ac := by
    have := List.of_mem_zip (hlanded ▸ hmem)
    exact this
  have hclt : c < mid.ground.length := by
    have h1 := (mem_freeForDrones.1 (hacsub _ hiac.2)).1
    rw [hb]
    show c < (writeCells (groundD s acts) (gResp P s acts) gc).length
    rw [writeCells_length, groundD_length]
    exact h1
  have hilt : i < mid.carrying.length := by
    have hid := (mem_aResp.1 hiac.1).1
    rw [hb]
    show i < (carryAfter P s acts).length
    rw [carryAfter_length]
    exact hid
  rcases pickupPairs_spec mid.landed mid.ground mid.carrying i c hfstnd hsndnd
    hmem hpk hclt hilt with ⟨hg, hcr⟩
  refine ⟨⟨mid.n, (pickupPairs mid.landed (mid.ground, mid.carrying)).1, mid.pos,
      (pickupPairs mid.landed (mid.ground, mid.carrying)).2, mid.charge⟩,
    ?_, hcr, hg, rfl, rfl⟩
  unfold step
  rw [hmid]
  simp only [Except.map]
  rw [finishStep_eq]

/-- Claim C8: the tick is deterministic.  The resolver is a pure function of
`(params, rng, state, intents)` — the explicit stream is its only source of
randomness, there is no ambient generator to consult — so two runs on
identical inputs return identical `(state', rewards, dones, info)`. -/
theorem step_deterministic (P P' : Params) (rng rng' : Rng) (s s' : State)
    (acts acts' : List Action) (hP : P = P') (hr : rng = rng') (hs : s = s')
    (ha : acts = acts') :
    step P rng s acts = step P' rng' s' acts' := by
  subst hP
  subst hr
  subst hs
  subst ha
  rfl

/-- Claim C5: the Spawner contract.  On a well-sized state, `spawn` writes
the `k` items onto distinct cells drawn without replacement from the cells
empty in both layers (the draws themselves come from the uniform stream),
returns the chosen cells in items-order, leaves every other cell and all
non-ground components untouched, and fails with `InsufficientSpace` exactly
when fewer than `k` doubly-empty cells exist. -/
theorem spawn_contract (items : List GTile) (s : State) (rng : Rng)
    (hg : s.ground.length = s.n * s.n) :
    (spawn items s rng = Except.error SpawnError.insufficientSpace ↔
      (freeBoth s).length < items.length) ∧
    (∀ s2 ps, spawn items s rng = Except.ok (s2, ps) →
      ps.length = items.length ∧ ps.Nodup ∧
      (∀ c ∈ ps, c ∈ freeBoth s) ∧
      (∀ j, j < items.length →
        s2.ground.getD (ps.getD j 0) GTile.empty = items.getD j GTile.empty) ∧
      (∀ c, c ∉ ps → s2.ground.getD c GTile.empty = s.ground.getD c GTile.empty) ∧
      s2.pos = s.pos ∧ s2.carrying = s.carrying ∧ s2.charge = s.charge ∧
      s2.n = s.n) := by
  unfold spawn
  rcases hp : pickCells (freeBoth s) items.length rng with _ | ⟨cs, r⟩
  · constructor
    · simp only [true_iff]
      exact (pickCells_none_iff _ _ _).1 hp
    · intro s2 ps h
      exact absurd h (by simp)
  · have hnotlt : ¬ (freeBoth s).length < items.length := by
      intro hc
      rw [(pickCells_none_iff _ _ rng).2 hc] at hp
      exact Option.noConfusion hp
    constructor
    · constructor
      · intro h
        exact absurd h (by simp)
      · intro h
        exact absurd h hnotlt
    · intro s2 ps h
      simp only [Except.ok.injEq, Prod.mk.injEq] at h
      rcases h with ⟨hs2, hps⟩
      subst hps
      rcases pickCells_spec _ _ _ _ _ hp with ⟨hlen, hsub, hnd⟩
      have hnodup : cs.Nodup := hnd (freeBoth_nodup s)
      have hlt : ∀ c ∈ cs, c < s.ground.length := by
        intro c hc
        rw [hg]
        exact (mem_freeForItems.1 (hsub c hc)).1
      refine ⟨hlen, hnodup, hsub, ?_, ?_, ?_, ?_, ?_, ?_⟩
      · intro j hj
        rw [← hs2]
        exact writeCells_getD_at items cs s.ground j GTile.empty hnodup hlen.symm
          hlt hj
      · intro c hc
        rw [← hs2]
        exact writeCells_getD_of_not_mem items cs s.ground c GTile.empty hc
      · rw [← hs2]
      · rw [← hs2]
      · rw [← hs2]
      · rw [← hs2]

theorem getD_inj_of_nodup {l : List Nat} {ki kj d : Nat} (hn : l.Nodup)
    (hki : ki < l.length) (hkj : kj < l.length)
    (h : l.getD ki d = l.getD kj d) : ki = kj := by
  rw [getD_eq_getElem _ _ _ hki, getD_eq_getElem _ _ _ hkj] at h
  induction l generalizing ki kj with
  | nil => simp at hki
  | cons x t ih =>
    rcases List.nodup_cons.1 hn with ⟨hx, ht⟩
    cases ki with
    | zero =>
      cases kj with
      | zero => rfl
      | succ kj' =>
        simp only [List.getElem_cons_zero, List.getElem_cons_succ] at h
        exact absurd (h ▸ List.getElem_mem (by simpa using hkj)) hx
    | succ ki' =>
      cases kj with
      | zero =>
        simp only [List.getElem_cons_zero, List.getElem_cons_succ] at h
        exact absurd (h ▸ List.getElem_mem (by simpa using hki)) hx
      | succ kj' =>
        simp only [List.getElem_cons_succ] at h
        have := ih ht (by simpa using hki) (by simpa using hkj) h
        omega

theorem slotAt_some_lt {l : List (Nat × Nat)} {p : Nat × Nat} {k : Nat}
    (h : slotAt l p = some k) : ∃ hk : k < l.length, l[k] = p := by
  induction l generalizing k with
  | nil => simp [slotAt] at h
  | cons q t ih =>
    by_cases hq : q = p
    · rw [slotAt, if_pos hq] at h
      rcases Option.some.inj h with rfl
      exact ⟨by simp, hq⟩
    · rw [slotAt, if_neg hq] at h
      rcases hrec : slotAt t p with _ | k'
      · rw [hrec] at h
        exact absurd h (by simp)
      · rw [hrec] at h
        simp only [Option.map_some', Option.some.injEq] at h
        rcases ih hrec with ⟨hk', hget⟩
        refine ⟨by simp; omega, ?_⟩
        have hkk : k = k' + 1 := h.symm
        subst hkk
        simpa using hget

theorem slotAt_eq_some_of_getElem {l : List (Nat × Nat)} {p : Nat × Nat} {k : Nat}
    (hn : l.Nodup) (hk : k < l.length) (h : l[k] = p) : slotAt l p = some k := by
  induction l generalizing k with
  | nil => simp at hk
  | cons q t ih =>
    rcases List.nodup_cons.1 hn with ⟨hq, ht⟩
    cases k with
    | zero =>
      simp only [List.getElem_cons_zero] at h
      rw [slotAt, if_pos h]
    | succ k' =>
      simp only [List.getElem_cons_succ] at h
      have hk' : k' < t.length := by simpa using hk
      have hqp : q ≠ p := by
        intro hc
        exact hq (hc ▸ h ▸ List.getElem_mem hk')
      rw [slotAt, if_neg hqp, ih ht hk' h]
      rfl

theorem filter_eq_singleton_length {α : Type _} [DecidableEq α] {l : List α} {a : α}
    (hn : l.Nodup) (ha : a ∈ l) :
    (l.filter (fun x => decide (x = a))).length = 1 := by
  induction l with
  | nil => simp at ha
  | cons x t ih =>
    rcases List.nodup_cons.1 hn with ⟨hx, ht⟩
    by_cases hxa : x = a
    · subst hxa
      have hnone : t.filter (fun y => decide (y = x)) = [] := by
        rw [List.filter_eq_nil_iff]
        intro b hb
        simp only [decide_eq_true_eq]
        intro hc
        exact hx (hc ▸ hb)
      simp [List.filter_cons, hnone]
    · have ha' : a ∈ t := by
        rcases List.mem_cons.1 ha with h | h
        · exact absurd h.symm hxa
        · exact h
      simp [List.filter_cons, hxa, ih ht ha']

theorem mem_allCells {n : Nat} {p : Nat × Nat} :
    p ∈ allCells n ↔ p.1 < n ∧ p.2 < n := by
  constructor
  · intro h
    rcases List.mem_map.1 h with ⟨c, hc, rfl⟩
    have hlt := List.mem_range.1 hc
    exact ⟨posOfCell_fst_lt hlt, posOfCell_snd_lt hlt⟩
  · intro ⟨h1, h2⟩
    refine List.mem_map.2 ⟨cellOf n p, List.mem_range.2 (cellOf_lt h1 h2), ?_⟩
    exact posOfCell_cellOf h2

theorem allCells_nodup (n : Nat) : (allCells n).Nodup := by
  refine List.Nodup.map_on ?_ (List.nodup_range _)
  intro c hc c' hc' he
  exact posOfCell_inj (List.mem_range.1 hc) (List.mem_range.1 hc') he

theorem survC_of_alive {P : Params} {s : State} {acts : List Action} {i : Nat}
    (h : alive P s acts i = true) : survC s acts i = true := by
  simp only [alive, Bool.and_eq_true] at h
  exact h.1

theorem posAfter_facts (P : Params) (s : State) (acts : List Action) (ac : List Nat)
    (haclen : ac.length = (aResp P s acts).length)
    (hacsub : ∀ c ∈ ac, c ∈ freeForDrones s.n (alivePosCells P s acts))
    (hacnd : ac.Nodup) :
    (posAfter P s acts ac).Nodup ∧
      ∀ p ∈ posAfter P s acts ac, p.1 < s.n ∧ p.2 < s.n := by
  have hlook : ∀ i, i < s.pos.length → alive P s acts i = false →
      ∃ k, k < ac.length ∧ (aResp P s acts).getD k 0 = i ∧
        lookupD ((aResp P s acts).zip ac) i 0 = ac.getD k 0 ∧
        ac.getD k 0 < s.n * s.n ∧
        ac.getD k 0 ∉ alivePosCells P s acts := by
    intro i hi hna
    have himem : i ∈ aResp P s acts := mem_aResp.2 ⟨hi, hna⟩
    rcases lookupD_zip (aResp P s acts) ac i 0 (aResp_nodup P s acts)
      haclen.symm himem with ⟨k, hk, hgk, hl⟩
    have hcmem : ac.getD k 0 ∈ ac := getD_mem_of_lt 0 hk
    rcases mem_freeForDrones.1 (hacsub _ hcmem) with ⟨hlt, hnotin⟩
    exact ⟨k, hk, hgk, hl, hlt, hnotin⟩
  constructor
  · refine List.Nodup.map_on ?_ (List.nodup_range _)
    intro i hi j hj he
    rw [List.mem_range] at hi hj
    by_contra hij
    by_cases hai : alive P s acts i = true
    · by_cases haj : alive P s acts j = true
      · rw [if_pos hai, if_pos haj] at he
        have hinsi : insideB s.n (dst s acts i) = true :=
          insideB_of_survB (survB_of_survC (survC_of_alive hai))
        have hinsj : insideB s.n (dst s acts j) = true :=
          insideB_of_survB (survB_of_survC (survC_of_alive haj))
        exact dst_inj_of_survC hi hj hij (survC_of_alive hai) (survC_of_alive haj)
          (toPos_inj hinsi hinsj he)
      · rw [if_pos hai, if_neg haj] at he
        rcases hlook j hj (Bool.eq_false_iff.2 haj) with ⟨k, hk, hgk, hl, hlt, hnotin⟩
        rw [hl] at he
        have hcells : cellOf s.n (toPos (dst s acts i)) = ac.getD k 0 := by
          rw [he, cellOf_posOfCell hlt]
        exact hnotin (hcells ▸ mem_alivePosCells.2 ⟨i, hi, hai, rfl⟩)
    · by_cases haj : alive P s acts j = true
      · rw [if_neg hai, if_pos haj] at he
        rcases hlook i hi (Bool.eq_false_iff.2 hai) with ⟨k, hk, hgk, hl, hlt, hnotin⟩
        rw [hl] at he
        have hcells : cellOf s.n (toPos (dst s acts j)) = ac.getD k 0 := by
          rw [← he, cellOf_posOfCell hlt]
        exact hnotin (hcells ▸ mem_alivePosCells.2 ⟨j, hj, haj, rfl⟩)
      · rw [if_neg hai, if_neg haj] at he
        rcases hlook i hi (Bool.eq_false_iff.2 hai) with ⟨ki, hki, hgki, hli, hlti, _⟩
        rcases hlook j hj (Bool.eq_false_iff.2 haj) with ⟨kj, hkj, hgkj, hlj, hltj, _⟩
        rw [hli, hlj] at he
        have hcc : ac.getD ki 0 = ac.getD kj 0 := posOfCell_inj hlti hltj he
        have hkk : ki = kj := getD_inj_of_nodup hacnd hki hkj hcc
        subst hkk
        exact hij (hgki ▸ hgkj)
  · intro p hp
    rcases List.mem_map.1 hp with ⟨i, hirange, rfl⟩
    have hi := List.mem_range.1 hirange
    by_cases hai : alive P s acts i = true
    · rw [if_pos hai]
      have hins : insideB s.n (dst s acts i) = true :=
        insideB_of_survB (survB_of_survC (survC_of_alive hai))
      exact ⟨toPos_fst_lt hins, toPos_snd_lt hins⟩
    · rw [if_neg hai]
      rcases hlook i hi (Bool.eq_false_iff.2 hai) with ⟨k, hk, hgk, hl, hlt, _⟩
      rw [hl]
      exact ⟨posOfCell_fst_lt hlt, posOfCell_snd_lt hlt⟩

theorem airAt_slot_none {s : State} {p : Nat × Nat}
    (h : slotAt s.pos p = none) : airAt s p = 0 := by
  unfold airAt
  rw [h]

theorem airAt_slot_some {s : State} {p : Nat × Nat} {k : Nat}
    (h : slotAt s.pos p = some k) : airAt s p = k + 1 := by
  unfold airAt
  rw [h]

/-- Claim C9: after any successful step on a legal state the derived air
layer is well-formed: every drone index `i ∈ [1,D]` occupies exactly one cell
of the grid, and every cell's air value is either `0` or such a drone index
(no drone is lost or duplicated, no two drones share a cell). -/
theorem air_layer_invariant (P : Params) (rng : Rng) (s : State)
    (acts : List Action) (s' : State) (rw : List Int) (dn : List Bool)
    (info : Info) (hleg : Legal s)
    (hstep : step P rng s acts = Except.ok (s', rw, dn, info)) :
    s'.pos.length = s.pos.length ∧
      (∀ i, 1 ≤ i → i ≤ s.pos.length →
        ((allCells s.n).filter (fun p => decide (airAt s' p = i))).length = 1) ∧
      ∀ p ∈ allCells s.n,
        airAt s' p = 0 ∨ (1 ≤ airAt s' p ∧ airAt s' p ≤ s.pos.length) := by
  rcases step_ok_elim hstep with ⟨mid, hmid, hout⟩
  rcases stepMid_ok_elim hmid with ⟨gc, rng1, ac, rng2, h1, h2, hb⟩
  rcases pickCells_spec _ _ _ _ _ h2 with ⟨haclen, hacsub, hacnd'⟩
  have hacnd : ac.Nodup := hacnd' (freeForDrones_nodup _ _)
  rw [finishStep_eq] at hout
  have hpos : s'.pos = posAfter P s acts ac := by
    have h3 := congrArg (fun t : State × List Int × List Bool × Info => t.1.pos) hout
    simpa [hb, buildMid] using h3
  rcases posAfter_facts P s acts ac haclen hacsub hacnd with ⟨hnd0, hbd0⟩
  have hnd : s'.pos.Nodup := by rw [hpos]; exact hnd0
  have hbd : ∀ p ∈ s'.pos, p.1 < s.n ∧ p.2 < s.n := by rw [hpos]; exact hbd0
  have hlen : s'.pos.length = s.pos.length := by
    rw [hpos, posAfter_length]
  refine ⟨hlen, ?_, ?_⟩
  · intro i h1i hiD
    have hk : i - 1 < s'.pos.length := by omega
    have hget : s'.pos.getD (i - 1) (0, 0) = s'.pos[i - 1] :=
      getD_eq_getElem _ _ _ hk
    have hpim : s'.pos.getD (i - 1) (0, 0) ∈ allCells s.n := by
      refine mem_allCells.2 (hbd _ ?_)
      exact getD_mem_of_lt (0, 0) hk
    have hiff : ∀ p ∈ allCells s.n,
        decide (airAt s' p = i) = decide (p = s'.pos.getD (i - 1) (0, 0)) := by
      intro p hp
      rw [decide_eq_decide]
      constructor
      · intro hair
        rcases hslot : slotAt s'.pos p with _ | m
        · rw [airAt_slot_none hslot] at hair
          omega
        · rw [airAt_slot_some hslot] at hair
          rcases slotAt_some_lt hslot with ⟨hm, hgetm⟩
          have hmk : m = i - 1 := by omega
          subst hmk
          rw [hget]
          exact hgetm.symm
      · intro hpe
        have hslot : slotAt s'.pos p = some (i - 1) :=
          slotAt_eq_some_of_getElem hnd hk (by rw [← hget, ← hpe])
        rw [airAt_slot_some hslot]
        omega
    rw [List.filter_congr hiff]
    exact filter_eq_singleton_length (allCells_nodup s.n) hpim
  · intro p hp
    rcases hslot : slotAt s'.pos p with _ | m
    · exact Or.inl (airAt_slot_none hslot)
    · right
      rcases slotAt_some_lt hslot with ⟨hm, -⟩
      rw [airAt_slot_some hslot]
      constructor
      · omega
      · omega

/-- Claim C3, counterexample to the claim as stated: in the worked pickup
scenario the pickup does happen (flag set, `pickup_reward` paid) yet no
replacement Packet is scheduled for respawn — the respawn schedule is free of
Packets and the resulting world holds no Packet at all, exactly as the
repository's `test_packages` asserts. -/
theorem pickup_schedules_no_replacement :
    step Pa rz sPickW [Action.right]
        = Except.ok (outPi.1, outPi.2.1, outPi.2.2.1, outPi.2.2.2) ∧
      (outPi.1).carrying.getD 0 false = true ∧
      (outPi.2.1).getD 0 0 = Pa.pickupReward ∧
      GTile.packet ∉ (outPi.2.2.2).groundRespawns ∧
      (outPi.1).ground.countP (fun t => decide (t = GTile.packet)) = 0 := by
  decide

theorem delivery_on_any_dropzone_witness :
    step Pa rz sDeliver [Action.right]
        = Except.ok (outDe.1, outDe.2.1, outDe.2.2.1, outDe.2.2.2) ∧
      ((carryB sDeliver 0 = true →
        (outDe.1).carrying.getD 0 false = false ∧
        (outDe.2.1).getD 0 0 = Pa.deliveryReward ∧
        (outDe.1).ground.getD
          (cellOf sDeliver.n (toPos (dst sDeliver [Action.right] 0))) GTile.empty
          = GTile.empty ∧
        GTile.dropzone ∈ (outDe.2.2.2).groundRespawns ∧
        (outDe.2.2.1).getD 0 false = false) ∧
      (carryB sDeliver 0 = false →
        (outDe.1).carrying.getD 0 false = false ∧
        (outDe.2.1).getD 0 0 = 0 ∧
        (outDe.1).ground.getD
          (cellOf sDeliver.n (toPos (dst sDeliver [Action.right] 0))) GTile.empty
          = GTile.dropzone ∧
        (outDe.2.2.1).getD 0 false = false)) :=
  ⟨by decide,
    delivery_on_any_dropzone Pa rz sDeliver [Action.right] 0 outDe.1 outDe.2.1
      outDe.2.2.1 outDe.2.2.2 (by decide) (by decide) (by decide) (by decide)
      (by decide) (by decide)⟩

theorem carrying_drone_leaves_packet_witness :
    step Pa rz sCarryW [Action.right]
        = Except.ok (outCa.1, outCa.2.1, outCa.2.2.1, outCa.2.2.2) ∧
      ((outCa.1).carrying.getD 0 false = true ∧
        (outCa.1).ground.getD
          (cellOf sCarryW.n (toPos (dst sCarryW [Action.right] 0))) GTile.empty
          = GTile.packet ∧
        (outCa.2.1).getD 0 0 = 0 ∧
        (outCa.2.2.1).getD 0 false = false) :=
  ⟨by decide,
    carrying_drone_leaves_packet Pa rz sCarryW [Action.right] 0 outCa.1 outCa.2.1
      outCa.2.2.1 outCa.2.2.2 (by decide) (by decide) (by decide) (by decide)
      (by decide) (by decide) (by decide)⟩

theorem pickup_absorbs_packet_witness :
    step Pa rz sPickW [Action.right]
        = Except.ok (outPi.1, outPi.2.1, outPi.2.2.1, outPi.2.2.2) ∧
      ((outPi.1).carrying.getD 0 false = true ∧
        (outPi.1).ground.getD
          (cellOf sPickW.n (toPos (dst sPickW [Action.right] 0))) GTile.empty
          = GTile.empty ∧
        (outPi.2.1).getD 0 0 = Pa.pickupReward ∧
        (outPi.2.2.1).getD 0 false = false ∧
        (GTile.packet ∈ (outPi.2.2.2).groundRespawns →
          ∃ j, j < sPickW.pos.length ∧
            (survC sPickW [Action.right] j = false ∨
              battCrash Pa sPickW [Action.right] j = true))) :=
  ⟨by decide,
    pickup_absorbs_packet Pa rz sPickW [Action.right] 0 outPi.1 outPi.2.1
      outPi.2.2.1 outPi.2.2.2 (by decide) (by decide) (by decide) (by decide)
      (by decide) (by decide) (by decide)⟩

theorem collision_group_crashes_witness :
    step Pa rz sCollW [Action.right, Action.left]
        = Except.ok (outCo.1, outCo.2.1, outCo.2.2.1, outCo.2.2.2) ∧
      (survC sCollW [Action.right, Action.left] 0 = false ∧
        (outCo.2.1).getD 0 0 = Pa.crashReward ∧
        (outCo.2.2.1).getD 0 false = true ∧
        0 ∈ (outCo.2.2.2).airRespawns ∧
        (carryB sCollW 0 = true → GTile.packet ∈ (outCo.2.2.2).groundRespawns)) :=
  ⟨by decide,
    collision_group_crashes Pa rz sCollW [Action.right, Action.left] 0 1 0
      outCo.1 outCo.2.1 outCo.2.2.1 outCo.2.2.2 (by decide) (by decide)
      (by decide) (by decide) (by decide) (by decide) (by decide) (by decide)
      (by decide) (by decide)⟩

theorem swap_pass_through_witness :
    step Pa rz sSwapW [Action.right, Action.left]
        = Except.ok (outSw.1, outSw.2.1, outSw.2.2.1, outSw.2.2.2) ∧
      (dst sSwapW [Action.right, Action.left] 0
          ≠ dst sSwapW [Action.right, Action.left] 1 ∧
        (outSw.1).pos.getD 0 (0, 0) = sSwapW.pos.getD 1 (0, 0) ∧
        (outSw.1).pos.getD 1 (0, 0) = sSwapW.pos.getD 0 (0, 0) ∧
        (outSw.2.2.1).getD 0 false = false ∧
        (outSw.2.2.1).getD 1 false = false) :=
  ⟨by decide,
    swap_pass_through Pa rz sSwapW [Action.right, Action.left] 0 1 outSw.1
      outSw.2.1 outSw.2.2.1 outSw.2.2.2 (by decide) (by decide) (by decide)
      (by decide) (by decide) (by decide) (by decide) (by decide) (by decide)
      (by decide) (by decide) (by decide) (by decide)⟩

theorem respawn_free_pickup_witness :
    stepMid Pa rz sCrashW [Action.left] = Except.ok midCr ∧
      (0, 0) ∈ midCr.landed ∧
      midCr.ground.getD 0 GTile.empty = GTile.packet ∧
      (∃ s' : State,
        step Pa rz sCrashW [Action.left]
          = Except.ok (s', midCr.rewards, midCr.dones, midCr.info) ∧
        s'.carrying.getD 0 false = true ∧
        s'.ground.getD 0 GTile.empty = GTile.empty ∧
        s'.pos = midCr.pos ∧ s'.charge = midCr.charge) :=
  ⟨by decide, by decide, by decide,
    respawn_free_pickup Pa rz sCrashW [Action.left] midCr 0 0 (by decide)
      (by decide) (by decide)⟩

theorem step_deterministic_witness :
    step Pa rz sDeliver [Action.right] = step Pa rz sDeliver [Action.right] :=
  step_deterministic Pa Pa rz rz sDeliver sDeliver [Action.right] [Action.right]
    rfl rfl rfl rfl

theorem spawn_contract_witness :
    sDeliver.ground.length = sDeliver.n * sDeliver.n ∧
      ((spawn [GTile.packet] sDeliver rz = Except.error SpawnError.insufficientSpace ↔
          (freeBoth sDeliver).length < ([GTile.packet] : List GTile).length) ∧
        (∀ s2 ps, spawn [GTile.packet] sDeliver rz = Except.ok (s2, ps) →
          ps.length = ([GTile.packet] : List GTile).length ∧ ps.Nodup ∧
          (∀ c ∈ ps, c ∈ freeBoth sDeliver) ∧
          (∀ j, j < ([GTile.packet] : List GTile).length →
            s2.ground.getD (ps.getD j 0) GTile.empty
              = ([GTile.packet] : List GTile).getD j GTile.empty) ∧
          (∀ c, c ∉ ps →
            s2.ground.getD c GTile.empty = sDeliver.ground.getD c GTile.empty) ∧
          s2.pos = sDeliver.pos ∧ s2.carrying = sDeliver.carrying ∧
          s2.charge = sDeliver.charge ∧ s2.n = sDeliver.n)) :=
  ⟨by decide, spawn_contract [GTile.packet] sDeliver rz (by decide)⟩

theorem air_layer_invariant_witness :
    Legal sCollW ∧
      ((outCo.1).pos.length = sCollW.pos.length ∧
        (∀ i, 1 ≤ i → i ≤ sCollW.pos.length →
          ((allCells sCollW.n).filter
            (fun p => decide (airAt outCo.1 p = i))).length = 1) ∧
        ∀ p ∈ allCells sCollW.n,
          airAt outCo.1 p = 0 ∨
            (1 ≤ airAt outCo.1 p ∧ airAt outCo.1 p ≤ sCollW.pos.length)) :=
  ⟨by decide,
    air_layer_invariant Pa rz sCollW [Action.right, Action.left] outCo.1
      outCo.2.1 outCo.2.2.1 outCo.2.2.2 (by decide) (by decide)⟩

end Core

/-! ## Lemmas about the legacy environment -/

namespace Legacy

theorem mem_freeGroundL {n : Nat} {g : List LTile} {c : Nat} :
    c ∈ freeGroundL n g ↔ c < n * n ∧ g.getD c LTile.empty = LTile.empty := by
  simp [freeGroundL, List.mem_filter, List.mem_range]

theorem freeGroundL_nodup (n : Nat) (g : List LTile) : (freeGroundL n g).Nodup :=
  (List.nodup_range _).filter _

theorem mem_freeAirL {n : Nat} {occ : List Nat} {c : Nat} :
    c ∈ freeAirL n occ ↔ c < n * n ∧ c ∉ occ := by
  simp [freeAirL, List.mem_filter, List.mem_range]

theorem freeAirL_nodup (n : Nat) (occ : List Nat) : (freeAirL n occ).Nodup :=
  (List.nodup_range _).filter _

theorem mem_crashedIdx {s : LState} {acts : List Action} {i : Nat} :
    i ∈ crashedIdx s acts ↔ i < s.pos.length ∧ aliveL s acts i = false := by
  simp [crashedIdx, List.mem_filter, List.mem_range]

theorem crashedIdx_nodup (s : LState) (acts : List Action) :
    (crashedIdx s acts).Nodup :=
  (List.nodup_range _).filter _

theorem cellL_lt {s : LState} {acts : List Action} {i : Nat}
    (h : aliveL s acts i = true) :
    cellOf s.n (toPos (dstL s acts i)) < s.n * s.n := by
  simp only [aliveL, Bool.and_eq_true] at h
  have hin : insideB s.n (dstL s acts i) = true := h.1
  exact cellOf_lt (toPos_fst_lt hin) (toPos_snd_lt hin)

theorem interact_lengths (s : LState) (acts : List Action) (a : Acc) (i : Nat) :
    (interact s acts a i).ground.length = a.ground.length ∧
      (interact s acts a i).pack.length = a.pack.length ∧
      (interact s acts a i).rewards.length = a.rewards.length := by
  unfold interact
  by_cases ha : aliveL s acts i = true
  · rw [if_pos ha]
    split
    · exact ⟨List.length_set .., List.length_set .., rfl⟩
    · exact ⟨List.length_set .., List.length_set .., rfl⟩
    · split
      · exact ⟨List.length_set .., List.length_set .., List.length_set ..⟩
      · exact ⟨rfl, rfl, rfl⟩
    · exact ⟨rfl, rfl, rfl⟩
  · rw [if_neg ha]
    exact ⟨rfl, List.length_set .., List.length_set ..⟩

theorem mAcc_mk (g : List LTile) (pk : List (Option Nat)) (rw : List Int)
    (rp : List LTile) :
    mAcc ⟨g, pk, rw, rp⟩
      = g.countP isPk + pk.countP (fun o => o.isSome) + rp.countP isPk := rfl

theorem interact_mAcc (s : LState) (acts : List Action) (a : Acc) (i : Nat)
    (hglen : a.ground.length = s.n * s.n) (hplen : i < a.pack.length) :
    mAcc (interact s acts a i) = mAcc a := by
  unfold interact
  by_cases ha : aliveL s acts i = true
  · rw [if_pos ha]
    have hclt : cellOf s.n (toPos (dstL s acts i)) < a.ground.length := by
      rw [hglen]
      exact cellL_lt ha
    split
    · rename_i k m hg hp
      have h1 : (a.ground.set (cellOf s.n (toPos (dstL s acts i)))
          (LTile.packet m)).countP isPk = a.ground.countP isPk :=
        countP_set_eq hclt (by rw [hg]; rfl)
      have h2 : (a.pack.set i (some k)).countP (fun o => o.isSome)
          = a.pack.countP (fun o => o.isSome) :=
        countP_set_eq hplen (by rw [hp]; rfl)
      rw [mAcc_mk]
      unfold mAcc
      omega
    · rename_i k hg hp
      have h1 : (a.ground.set (cellOf s.n (toPos (dstL s acts i)))
          LTile.empty).countP isPk + 1 = a.ground.countP isPk :=
        countP_set_sub hclt rfl (by rw [hg]; rfl)
      have h2 : (a.pack.set i (some k)).countP (fun o => o.isSome)
          = a.pack.countP (fun o => o.isSome) + 1 :=
        countP_set_add hplen rfl (by rw [hp]; rfl)
      rw [mAcc_mk]
      unfold mAcc
      omega
    · rename_i k m hg hp
      split
      · have h1 : (a.ground.set (cellOf s.n (toPos (dstL s acts i)))
            LTile.empty).countP isPk = a.ground.countP isPk :=
          countP_set_eq hclt (by rw [hg]; rfl)
        have h2 : (a.pack.set i none).countP (fun o => o.isSome) + 1
            = a.pack.countP (fun o => o.isSome) :=
          countP_set_sub hplen rfl (by rw [hp]; rfl)
        have h3 : (a.resp ++ [LTile.packet m, LTile.dropzone k]).countP isPk
            = a.resp.countP isPk + 1 := by
          rw [List.countP_append]
          simp [isPk]
        rw [mAcc_mk]
        unfold mAcc
        omega
      · rfl
    · rfl
  · rw [if_neg ha]
    rcases hp : a.pack.getD i none with _ | m
    · have h2 : (a.pack.set i none).countP (fun o => o.isSome)
          = a.pack.countP (fun o => o.isSome) :=
        countP_set_eq hplen (by rw [hp])
      have h3 : (a.resp ++ ([] : List LTile)).countP isPk
          = a.resp.countP isPk := by simp
      dsimp only
      rw [mAcc_mk]
      unfold mAcc
      omega
    · have h2 : (a.pack.set i none).countP (fun o => o.isSome) + 1
          = a.pack.countP (fun o => o.isSome) :=
        countP_set_sub hplen rfl (by rw [hp]; rfl)
      have h3 : (a.resp ++ [LTile.packet m]).countP isPk
          = a.resp.countP isPk + 1 := by
        rw [List.countP_append]
        simp [isPk]
      dsimp only
      rw [mAcc_mk]
      unfold mAcc
      omega

theorem interactList_invariant (s : LState) (acts : List Action) (l : List Nat)
    (a : Acc) (hmem : ∀ x ∈ l, x < a.pack.length)
    (hglen : a.ground.length = s.n * s.n) :
    mAcc (interactList s acts l a) = mAcc a ∧
      (interactList s acts l a).ground.length = a.ground.length ∧
      (interactList s acts l a).pack.length = a.pack.length := by
  induction l generalizing a with
  | nil => exact ⟨rfl, rfl, rfl⟩
  | cons x t ih =>
    rcases interact_lengths s acts a x with ⟨hlg, hlp, -⟩
    have hm : mAcc (interact s acts a x) = mAcc a :=
      interact_mAcc s acts a x hglen (hmem x (List.mem_cons_self _ _))
    rcases ih (interact s acts a x)
      (fun y hy => by rw [hlp]; exact hmem y (List.mem_cons_of_mem _ hy))
      (by rw [hlg]; exact hglen) with ⟨hm', hlg', hlp'⟩
    exact ⟨hm'.trans hm, hlg'.trans hlg, hlp'.trans hlp⟩

theorem interact_pack_other (s : LState) (acts : List Action) (a : Acc) (i j : Nat)
    (hij : j ≠ i) :
    (interact s acts a i).pack.getD j none = a.pack.getD j none := by
  unfold interact
  by_cases ha : aliveL s acts i = true
  · rw [if_pos ha]
    split
    · exact getD_set_ne _ _ _ _ _ (Ne.symm hij)
    · exact getD_set_ne _ _ _ _ _ (Ne.symm hij)
    · split
      · exact getD_set_ne _ _ _ _ _ (Ne.symm hij)
      · rfl
    · rfl
  · rw [if_neg ha]
    exact getD_set_ne _ _ _ _ _ (Ne.symm hij)

theorem interactList_pack_other (s : LState) (acts : List Action) (l : List Nat)
    (a : Acc) (i : Nat) (h : i ∉ l) :
    (interactList s acts l a).pack.getD i none = a.pack.getD i none := by
  induction l generalizing a with
  | nil => rfl
  | cons x t ih =>
    have hxi : i ≠ x := fun hc => h (hc ▸ List.mem_cons_self _ _)
    have ht : i ∉ t := fun hc => h (List.mem_cons_of_mem _ hc)
    show (interactList s acts t (interact s acts a x)).pack.getD i none = _
    rw [ih (interact s acts a x) ht]
    exact interact_pack_other s acts a x i hxi

theorem interact_pack_self_crashed (s : LState) (acts : List Action) (a : Acc)
    (i : Nat) (ha : aliveL s acts i = false) (hi : i < a.pack.length) :
    (interact s acts a i).pack.getD i none = none := by
  unfold interact
  rw [if_neg (by rw [ha]; exact Bool.noConfusion)]
  exact getD_set_self _ _ _ _ hi

theorem interactList_pack_crashed (s : LState) (acts : List Action) (l : List Nat)
    (a : Acc) (i : Nat) (hnd : l.Nodup) (hmem : i ∈ l)
    (ha : aliveL s acts i = false) (hi : i < a.pack.length) :
    (interactList s acts l a).pack.getD i none = none := by
  induction l generalizing a with
  | nil => simp at hmem
  | cons x t ih =>
    rcases List.nodup_cons.1 hnd with ⟨hx, ht⟩
    rcases List.mem_cons.1 hmem with rfl | hmem'
    · show (interactList s acts t (interact s acts a i)).pack.getD i none = none
      rw [interactList_pack_other s acts t _ i hx]
      exact interact_pack_self_crashed s acts a i ha hi
    · show (interactList s acts t (interact s acts a x)).pack.getD i none = none
      refine ih (interact s acts a x) ht hmem' ?_
      rw [(interact_lengths s acts a x).2.1]
      exact hi

theorem pickupL_measure (pairs : List (Nat × Nat)) (g : List LTile)
    (pk : List (Option Nat)) (hfst : (pairs.map Prod.fst).Nodup)
    (hcond : ∀ ic ∈ pairs, ic.1 < pk.length ∧ ic.2 < g.length ∧
      pk.getD ic.1 none = none) :
    (pickupL pairs (g, pk)).1.countP isPk +
        (pickupL pairs (g, pk)).2.countP (fun o => o.isSome)
      = g.countP isPk + pk.countP (fun o => o.isSome) := by
  induction pairs generalizing g pk with
  | nil => rfl
  | cons ic rest ih =>
    rcases ic with ⟨i, c⟩
    rw [List.map_cons] at hfst
    rcases List.nodup_cons.1 hfst with ⟨hif, hfst'⟩
    rcases hcond (i, c) (List.mem_cons_self _ _) with ⟨hip, hcg, hpknone⟩
    unfold pickupL
    rcases hg : g.getD c LTile.empty with _ | m | m
    · exact ih g pk hfst' (fun ic' h' => hcond ic' (List.mem_cons_of_mem _ h'))
    · have h1 : (g.set c LTile.empty).countP isPk + 1 = g.countP isPk :=
        countP_set_sub hcg rfl (by rw [hg]; rfl)
      have h2 : (pk.set i (some m)).countP (fun o => o.isSome)
          = pk.countP (fun o => o.isSome) + 1 :=
        countP_set_add hip rfl (by rw [hpknone]; rfl)
      have hrest := ih (g.set c LTile.empty) (pk.set i (some m)) hfst' ?_
      · rw [hrest]
        omega
      · intro ic' h'
        rcases hcond ic' (List.mem_cons_of_mem _ h') with ⟨h1', h2', h3'⟩
        refine ⟨by rw [List.length_set]; exact h1',
          by rw [List.length_set]; exact h2', ?_⟩
        have hne : ic'.1 ≠ i := by
          intro hc
          exact hif (hc ▸ List.mem_map.2 ⟨ic', h', rfl⟩)
        rw [getD_set_ne _ _ _ _ _ (Ne.symm hne)]
        exact h3'
    · exact ih g pk hfst' (fun ic' h' => hcond ic' (List.mem_cons_of_mem _ h'))

/-- Claim C10: every successful step of the reference environment `src/env.py`
preserves the total number of packages in the world — packets on the ground
plus packets held by drones.  Pickups, swaps and post-respawn free pickups
move a packet between ground and drone; deliveries and crash losses place the
held packet on the respawn schedule, which the ground Spawner writes back
onto empty cells before the tick returns. -/
theorem packet_conservation (rng : Rng) (s : LState) (acts : List Action)
    (s' : LState) (rw : List Int) (dn : List Bool) (hleg : LegalL s)
    (hstep : stepL rng s acts = Except.ok (s', rw, dn)) :
    packCount s' = packCount s := by
  rcases hleg with ⟨hglen, hplen⟩
  have hinit : mAcc ⟨s.ground, s.pack, List.replicate s.pos.length 0, []⟩
      = packCount s := by
    rw [mAcc_mk]
    unfold packCount
    simp
  rcases interactList_invariant s acts (List.range s.pos.length)
      ⟨s.ground, s.pack, List.replicate s.pos.length 0, []⟩
      (fun x hx => by
        show x < s.pack.length
        rw [hplen]
        exact List.mem_range.1 hx)
      hglen with ⟨hmA, hg1len, hp1len⟩
  have hph : phase1 s acts = interactList s acts (List.range s.pos.length)
      ⟨s.ground, s.pack, List.replicate s.pos.length 0, []⟩ := rfl
  rw [← hph] at hmA hg1len hp1len
  unfold stepL at hstep
  split at hstep
  · exact absurd hstep (by simp)
  · rename_i gc rng1 h1
    split at hstep
    · exact absurd hstep (by simp)
    · rename_i ac rng2 h2
      split at hstep
      rename_i g3 pk3 hpp
      simp only [Except.ok.injEq, Prod.mk.injEq] at hstep
      rcases hstep with ⟨hs', -, -⟩
      rcases pickCells_spec _ _ _ _ _ h1 with ⟨hgclen, hgcsub, hgcnd'⟩
      have hgcnd : gc.Nodup := hgcnd' (freeGroundL_nodup _ _)
      rcases pickCells_spec _ _ _ _ _ h2 with ⟨haclen, hacsub, hacnd'⟩
      have hg2 : (writeCells (phase1 s acts).ground (phase1 s acts).resp gc).countP isPk
          = (phase1 s acts).ground.countP isPk + (phase1 s acts).resp.countP isPk := by
        refine writeCells_countP isPk LTile.empty rfl _ _ _ hgcnd hgclen.symm ?_
        intro c hc
        rcases mem_freeGroundL.1 (hgcsub c hc) with ⟨hlt, hempty⟩
        exact ⟨by rw [hg1len, hglen]; exact hlt, hempty⟩
      have hmapfst : ((crashedIdx s acts).zip ac).map Prod.fst = crashedIdx s acts :=
        List.map_fst_zip _ _ (le_of_eq haclen.symm)
      have hfst : (((crashedIdx s acts).zip ac).map Prod.fst).Nodup := by
        rw [hmapfst]
        exact crashedIdx_nodup s acts
      have hcond : ∀ ic ∈ (crashedIdx s acts).zip ac,
          ic.1 < (phase1 s acts).pack.length ∧
          ic.2 < (writeCells (phase1 s acts).ground (phase1 s acts).resp gc).length ∧
          (phase1 s acts).pack.getD ic.1 none = none := by
        intro ic hic
        rcases ic with ⟨i, c⟩
        rcases List.of_mem_zip hic with ⟨hicr, hcac⟩
        rcases mem_crashedIdx.1 hicr with ⟨hiD, hna⟩
        refine ⟨?_, ?_, ?_⟩
        · rw [hp1len, hplen]
          exact hiD
        · rw [writeCells_length, hg1len, hglen]
          exact (mem_freeAirL.1 (hacsub _ hcac)).1
        · refine interactList_pack_crashed s acts (List.range s.pos.length) _ i
            (List.nodup_range _) (List.mem_range.2 hiD) hna ?_
          show i < s.pack.length
          rw [hplen]
          exact hiD
      have hmeasure := pickupL_measure ((crashedIdx s acts).zip ac)
        (writeCells (phase1 s acts).ground (phase1 s acts).resp gc)
        (phase1 s acts).pack hfst hcond
      rw [hpp] at hmeasure
      have hAexp : mAcc (phase1 s acts)
          = (phase1 s acts).ground.countP isPk
            + (phase1 s acts).pack.countP (fun o => o.isSome)
            + (phase1 s acts).resp.countP isPk := rfl
      have hfinal : packCount s' = g3.countP isPk + pk3.countP (fun o => o.isSome) := by
        rw [← hs']
        rfl
      rw [hfinal, hmeasure, hg2]
      rw [hinit] at hmA
      rw [hAexp] at hmA
      omega

theorem packet_conservation_witness :
    LegalL sLW ∧
      stepL rz sLW [Action.right] = Except.ok (outLW.1, outLW.2.1, outLW.2.2) ∧
      packCount outLW.1 = packCount sLW :=
  ⟨by decide, by decide,
    packet_conservation rz sLW [Action.right] outLW.1 outLW.2.1 outLW.2.2
      (by decide) (by decide)⟩

end Legacy

end DroneRL
